import Mathlib

/-!
Verification development for the PeerJS-Network repository (src/ts/Network.ts).

The development shallowly embeds the parts of `Network.ts` that the checked
properties concern:

* `proxyfy` / `unproxyfy` and the process-wide `proxyCache` (lines 3-43) —
  modelled over tree-shaped JSON-representable plain data (`PValue`): a proxy
  is identified by the plain root it was created over together with the
  property path from that root, which is faithful for the values the sync
  protocol produces (they all come out of `JSON.parse`, hence are acyclic
  trees without aliasing).
* the `Network` class state (hosting flag, admission lists, connection table,
  synced-object table) and its public operations.
* the `NetworkConnection` handlers `#open`, `#close`, `#data`, `#timeout` and
  the `Timer` class.

JavaScript `Map`s are modelled as insertion-ordered association lists whose
`set` overwrites in place, `number` timestamps as naturals (`Date.now()` is
integral and non-decreasing), and thrown exceptions as `Except.error`.
Array-valued JSON data and fractional JSON numbers do not occur in any of the
checked properties and are not modelled; symbol property keys (allowed by the
`(string | symbol)[]` path type) are modelled by their string form.
-/

mutual
/-- A JSON-representable plain value (the data synced by the protocol). -/
inductive PValue where
  | vnull : PValue
  | vbool : Bool → PValue
  | vnum : Int → PValue
  | vstr : String → PValue
  | vobj : PFields → PValue
deriving DecidableEq, Repr

/-- The ordered own-property list of a plain object. -/
inductive PFields where
  | nil : PFields
  | cons : String → PValue → PFields → PFields
deriving DecidableEq, Repr
end

namespace PFields

/-- Property read, `target[key]`: first (unique) matching key. -/
def objGet : PFields → String → Option PValue
  | .nil, _ => none
  | .cons k v rest, key => if k = key then some v else objGet rest key

/-- Property write, `target[key] = value`: an existing key is updated in
place (JS objects keep property order on assignment), a fresh key is
appended. -/
def objSet : PFields → String → PValue → PFields
  | .nil, key, val => .cons key val .nil
  | .cons k v rest, key, val =>
      if k = key then .cons k val rest else .cons k v (objSet rest key val)

/-- Number of properties. -/
def flen : PFields → Nat
  | .nil => 0
  | .cons _ _ rest => flen rest + 1

theorem objGet_objSet_self : (fs : PFields) → ∀ (k : String) (v : PValue),
    objGet (objSet fs k v) k = some v
  | .nil, k, v => by simp [objGet, objSet]
  | .cons k' v' rest, k, v => by
      by_cases h : k' = k
      · simp [objGet, objSet, h]
      · simp [objGet, objSet, h, objGet_objSet_self rest k v]

end PFields

/-- Value stored at a property path below a plain value: descend one key per
path element, failing on a missing key or a non-object intermediate. -/
def getPath : PValue → List String → Option PValue
  | v, [] => some v
  | .vobj fs, k :: ks =>
      match fs.objGet k with
      | some v => getPath v ks
      | none => none
  | _, _ :: _ => none

/-- Assignment of `val` at a (nonempty) property path below a plain value:
descend along all keys but the last, then write at the last key (which may
be fresh).  `none` when the descent fails. -/
def setPath : PValue → List String → PValue → Option PValue
  | .vobj fs, [k], val => some (.vobj (fs.objSet k val))
  | .vobj fs, k :: k' :: ks, val =>
      match fs.objGet k with
      | some v => (setPath v (k' :: ks) val).map (fun w => .vobj (fs.objSet k w))
      | none => none
  | _, _, _ => none

theorem getPath_setPath (p : List String) :
    ∀ (v val w : PValue), setPath v p val = some w → getPath w p = some val := by
  induction p with
  | nil => intro v val w h; cases v <;> simp [setPath] at h
  | cons k ks ih =>
      intro v val w h
      cases v with
      | vobj fs =>
          cases ks with
          | nil =>
              simp [setPath] at h
              subst h
              simp [getPath, PFields.objGet_objSet_self]
          | cons k' ks' =>
              cases hob : fs.objGet k with
              | none => simp [setPath, hob] at h
              | some u =>
                  simp [setPath, hob, Option.map_eq_some'] at h
                  obtain ⟨w', hw', rfl⟩ := h
                  simp [getPath, PFields.objGet_objSet_self]
                  exact ih u val w' hw'
      | vnull => simp [setPath] at h
      | vbool b => simp [setPath] at h
      | vnum n => simp [setPath] at h
      | vstr s => simp [setPath] at h

/-- A JavaScript reference as it flows through the variable `object` of the
CHANGESYNC branch of `NetworkConnection.#data` (Network.ts:559-565): the
`null` that `unproxyfy` returns on a cache miss, `undefined` from a missing
property read, or an actual value. -/
inductive JsRef where
  | jsnull : JsRef
  | undefinedRef : JsRef
  | value : PValue → JsRef
deriving DecidableEq, Repr

/-- The path walk of the CHANGESYNC branch (Network.ts:561-565):
`while (path.length > 1) object = object[path.shift()]` followed by
`object[path.pop()] = data.value`, under strict-mode semantics (the source
is an ES module): property access on `null`/`undefined` throws, property
assignment on a primitive throws, a missing-key read yields `undefined`,
and `pop()` on an empty path yields the key `"undefined"` after string
coercion.  Returns the updated plain root (the in-place mutation of the
nested object is visible from the root; the data is a tree, so rebuilding
the spine is exact). -/
def applyChangeSync : JsRef → List String → PValue → Except String PValue
  | .jsnull, _, _ => .error "TypeError: cannot set properties of null"
  | .undefinedRef, _, _ => .error "TypeError: cannot set properties of undefined"
  | .value (.vobj fs), [], value => .ok (.vobj (fs.objSet "undefined" value))
  | .value (.vobj fs), [k], value => .ok (.vobj (fs.objSet k value))
  | .value (.vobj fs), k :: k' :: ks, value =>
      match fs.objGet k with
      | some v =>
          (applyChangeSync (.value v) (k' :: ks) value).map
            (fun w => .vobj (fs.objSet k w))
      | none => applyChangeSync .undefinedRef (k' :: ks) value
  | .value _, _, _ => .error "TypeError: cannot set properties of a primitive"

/-- The code's walk-and-assign agrees with the specification-level path
assignment `setPath` whenever it succeeds on a nonempty path. -/
theorem applyChangeSync_eq_setPath (p : List String) :
    ∀ (v val w : PValue), p ≠ [] →
      applyChangeSync (.value v) p val = .ok w → setPath v p val = some w := by
  induction p with
  | nil => intro v val w hp; exact absurd rfl hp
  | cons k ks ih =>
      intro v val w _ h
      cases v with
      | vobj fs =>
          cases ks with
          | nil =>
              simp [applyChangeSync] at h
              simp [setPath, ← h]
          | cons k' ks' =>
              cases hob : fs.objGet k with
              | none => simp [applyChangeSync, hob] at h
              | some u =>
                  simp [applyChangeSync, hob, Except.map] at h
                  cases hrec : applyChangeSync (.value u) (k' :: ks') val with
                  | error e => rw [hrec] at h; simp at h
                  | ok w' =>
                      rw [hrec] at h; simp at h
                      have := ih u val w' (by simp) hrec
                      simp [setPath, hob, this, ← h]
      | vnull => simp [applyChangeSync] at h
      | vbool b => cases ks <;> simp [applyChangeSync] at h
      | vnum n => cases ks <;> simp [applyChangeSync] at h
      | vstr s => cases ks <;> simp [applyChangeSync] at h

/-- Lowercase hex digit. -/
def hexDigit (n : Nat) : Char :=
  if n < 10 then Char.ofNat (48 + n) else Char.ofNat (87 + n)

/-- `JSON.stringify` escaping of one string character: `"` and `\` get a
backslash, the control characters with short forms use them, any other
control character becomes a `\u00xx` escape, everything else is verbatim. -/
def escapeChar (c : Char) : List Char :=
  if c = '"' then ['\\', '"']
  else if c = '\\' then ['\\', '\\']
  else if c = Char.ofNat 8 then ['\\', 'b']
  else if c = '\t' then ['\\', 't']
  else if c = '\n' then ['\\', 'n']
  else if c = Char.ofNat 12 then ['\\', 'f']
  else if c = Char.ofNat 13 then ['\\', 'r']
  else if c.toNat < 32 then
    ['\\', 'u', '0', '0', hexDigit (c.toNat / 16), hexDigit (c.toNat % 16)]
  else [c]

/-- `JSON.stringify` of a string, including the surrounding quotes. -/
def stringifyStr (s : String) : List Char :=
  '"' :: (s.data.flatMap escapeChar) ++ ['"']

mutual
/-- `JSON.stringify` on the modelled plain values. -/
def stringifyChars : PValue → List Char
  | .vnull => ['n', 'u', 'l', 'l']
  | .vbool true => ['t', 'r', 'u', 'e']
  | .vbool false => ['f', 'a', 'l', 's', 'e']
  | .vnum i => (toString i).data
  | .vstr s => stringifyStr s
  | .vobj fs => Char.ofNat 123 :: stringifyFields fs ++ [Char.ofNat 125]

/-- Comma-separated `"key":value` serialization of an object's fields. -/
def stringifyFields : PFields → List Char
  | .nil => []
  | .cons k v .nil => stringifyStr k ++ ':' :: stringifyChars v
  | .cons k v rest =>
      stringifyStr k ++ ':' :: stringifyChars v ++ ',' :: stringifyFields rest
end

/-- `JSON.stringify` (Network.ts:393, 488). -/
def stringify (v : PValue) : String := ⟨stringifyChars v⟩

/-- Whitespace skipping of the JSON grammar. -/
def skipWs : List Char → List Char
  | c :: rest =>
      if c = ' ' ∨ c = '\n' ∨ c = '\t' ∨ c = Char.ofNat 13 then skipWs rest
      else c :: rest
  | [] => []

/-- Value of one hex digit. -/
def hexVal (c : Char) : Option Nat :=
  if '0' ≤ c ∧ c ≤ '9' then some (c.toNat - 48)
  else if 'a' ≤ c ∧ c ≤ 'f' then some (c.toNat - 87)
  else if 'A' ≤ c ∧ c ≤ 'F' then some (c.toNat - 55)
  else none

/-- JSON string body parser (after the opening quote), handling the escape
forms produced by `JSON.stringify`. -/
def parseStrChars : List Char → Option (List Char × List Char)
  | [] => none
  | c :: rest =>
      if c = '"' then some ([], rest)
      else if c = '\\' then
        match rest with
        | [] => none
        | e :: rest' =>
            if e = 'u' then
              match rest' with
              | h1 :: h2 :: h3 :: h4 :: rest'' =>
                  match hexVal h1, hexVal h2, hexVal h3, hexVal h4 with
                  | some a, some b, some c', some d =>
                      (parseStrChars rest'').map (fun (s, r) =>
                        (Char.ofNat (((a * 16 + b) * 16 + c') * 16 + d) :: s, r))
                  | _, _, _, _ => none
              | _ => none
            else
              match
                (if e = '"' then some '"'
                 else if e = '\\' then some '\\'
                 else if e = '/' then some '/'
                 else if e = 'b' then some (Char.ofNat 8)
                 else if e = 'f' then some (Char.ofNat 12)
                 else if e = 'n' then some '\n'
                 else if e = 'r' then some (Char.ofNat 13)
                 else if e = 't' then some '\t'
                 else none) with
              | some d => (parseStrChars rest').map (fun (s, r) => (d :: s, r))
              | none => none
      else (parseStrChars rest).map (fun (s, r) => (c :: s, r))

/-- Integer-literal parser (fractional and exponent JSON numbers are outside
the modelled value space and are rejected). -/
def parseNum (cs : List Char) : Option (PValue × List Char) :=
  let (neg, cs') : Bool × List Char :=
    match cs with
    | '-' :: rest => (true, rest)
    | _ => (false, cs)
  let digits := cs'.takeWhile Char.isDigit
  let rest := cs'.dropWhile Char.isDigit
  if digits = [] then none
  else
    match rest with
    | '.' :: _ => none
    | 'e' :: _ => none
    | 'E' :: _ => none
    | _ =>
        let n : Nat := digits.foldl (fun acc c => acc * 10 + (c.toNat - 48)) 0
        some (.vnum (if neg then -(n : Int) else (n : Int)), rest)

mutual
/-- Fuelled JSON value parser (model of `JSON.parse`, Network.ts:395, 544).
Nesting depth is bounded by the input length, so any fuel of at least
`length + 1` is exact. -/
def parseVal : Nat → List Char → Option (PValue × List Char)
  | 0, _ => none
  | fuel + 1, cs =>
      match skipWs cs with
      | 'n' :: 'u' :: 'l' :: 'l' :: rest => some (.vnull, rest)
      | 't' :: 'r' :: 'u' :: 'e' :: rest => some (.vbool true, rest)
      | 'f' :: 'a' :: 'l' :: 's' :: 'e' :: rest => some (.vbool false, rest)
      | '"' :: rest => (parseStrChars rest).map (fun (s, r) => (.vstr ⟨s⟩, r))
      | c :: rest => parseValTail fuel c rest
      | [] => none

/-- Non-keyword cases of `parseVal` (objects and numbers). -/
def parseValTail : Nat → Char → List Char → Option (PValue × List Char)
  | 0, _, _ => none
  | fuel + 1, c, rest =>
      if c = Char.ofNat 123 then
        match skipWs rest with
        | d :: rest' =>
            if d = Char.ofNat 125 then some (.vobj .nil, rest')
            else parseFields fuel (d :: rest')
        | [] => none
      else if c = '-' ∨ c.isDigit then parseNum (c :: rest)
      else none

/-- Parser of a nonempty `"key":value` field list followed by the closing
brace. -/
def parseFields : Nat → List Char → Option (PValue × List Char)
  | 0, _ => none
  | fuel + 1, cs =>
      match skipWs cs with
      | '"' :: rest =>
          match parseStrChars rest with
          | none => none
          | some (k, rest') =>
              match skipWs rest' with
              | ':' :: rest'' =>
                  match parseVal fuel rest'' with
                  | none => none
                  | some (v, rest''') =>
                      match skipWs rest''' with
                      | ',' :: more =>
                          (parseFields fuel more).map (fun (tl, r) =>
                            match tl with
                            | .vobj tfs => (.vobj (.cons ⟨k⟩ v tfs), r)
                            | _ => (.vobj (.cons ⟨k⟩ v .nil), r))
                      | d :: more =>
                          if d = Char.ofNat 125 then
                            some (.vobj (.cons ⟨k⟩ v .nil), more)
                          else none
                      | [] => none
              | _ => none
      | _ => none
end

/-- `JSON.parse` on a whole input string; `none` models a thrown
`SyntaxError`. -/
def parseJson (s : String) : Option PValue :=
  match parseVal (s.length + 2) s.data with
  | some (v, rest) => if skipWs rest = [] then some v else none
  | none => none

/-- Wire messages (Network.ts §6 table): the three string sentinels, the three
sync-protocol records (the NEWSYNC payload is the JSON string of the object),
and any other application payload. -/
inductive Msg where
  | iamhere : Msg
  | closeMsg : Msg
  | confirm : Msg
  | newsync : String → String → Msg
  | changesync : String → List String → PValue → Msg
  | unsyncMsg : String → Msg
  | raw : PValue → Msg
deriving DecidableEq, Repr

/-- A callback occurrence: the `NetworkEvent` kind fired together with the
arguments handed to the registered handlers (Network.ts:45-73). -/
inductive CB where
  | peerOpened : String → CB
  | peerConnection : String → CB
  | hostOpened : CB
  | clientOpened : CB
  | hostClosed : CB
  | clientClosed : CB
  | clientConfirmed : CB
  | hostReceivedData : Msg → CB
  | clientReceivedData : Msg → CB
  | hostSyncedData : String → CB
  | clientSyncedData : String → CB
  | hostSyncedDataChanged : String → List String → PValue → CB
  | clientSyncedDataChanged : String → List String → PValue → CB
  | hostUnsyncedData : PValue → CB
  | clientUnsyncedData : PValue → CB
deriving DecidableEq, Repr

/-- One entry of `Network.connections`.  `id` is `connection.peer`,
`receiver` the role flag passed to the `NetworkConnection` constructor.
`opened` is not a field of the source class: it is specification-only ghost
state recording that the transport `open` event of this connection has been
processed (and, for a receiver, that admission passed — a rejected receiver
is deleted by the same event), used to phrase quiescence. -/
structure Conn where
  id : String
  receiver : Bool
  opened : Bool
deriving DecidableEq, Repr

/-- `Map`-semantics helpers over the connection table: `get`, `set`
(overwrite in place, insert at the end), `delete`. -/
def connsGet (l : List Conn) (id : String) : Option Conn :=
  l.find? (fun c => c.id == id)

def connsSet (l : List Conn) (c : Conn) : List Conn :=
  if l.any (fun x => x.id == c.id) then
    l.map (fun x => if x.id == c.id then c else x)
  else l ++ [c]

def connsDelete (l : List Conn) (id : String) : List Conn :=
  l.filter (fun c => c.id != id)

/-- `syncedObjects` helpers with the same `Map` semantics.  The table maps a
uuid to the live proxy; the model stores the underlying plain value — i.e.
`unproxyfy` of the stored proxy — because a proxy is exactly its plain value
plus the change-callback closure, which the handlers reconstruct where used. -/
def syncedHas (l : List (String × PValue)) (uuid : String) : Bool :=
  l.any (fun kv => kv.1 == uuid)

def syncedGet (l : List (String × PValue)) (uuid : String) : Option PValue :=
  (l.find? (fun kv => kv.1 == uuid)).map (fun kv => kv.2)

def syncedSet (l : List (String × PValue)) (uuid : String) (v : PValue) :
    List (String × PValue) :=
  if l.any (fun kv => kv.1 == uuid) then
    l.map (fun kv => if kv.1 == uuid then (uuid, v) else kv)
  else l ++ [(uuid, v)]

def syncedDelete (l : List (String × PValue)) (uuid : String) :
    List (String × PValue) :=
  l.filter (fun kv => kv.1 != uuid)

/-- The `Network` class state (Network.ts:80-96).  `peerStarted`/`selfId`
model `this.peer`/`this.id` (set by the `peer.on('open')` handler); the
callback registry is modelled by emitting `CB` occurrences instead. -/
structure Network where
  peerStarted : Bool := false
  selfId : String := ""
  isHosting : Bool := false
  maxClient : Nat := 15
  acceptConnections : Bool := true
  useWhitelist : Bool := true
  whitelist : List String := []
  blacklist : List String := []
  connections : List Conn := []
  syncedObjects : List (String × PValue) := []
deriving DecidableEq, Repr

/-- `Network.hasConnections` (Network.ts:101). -/
def Network.hasConnections (n : Network) : Bool :=
  n.connections.length != 0

/-- `Network.isFull` (Network.ts:106): `connections.size >= maxClient`. -/
def Network.isFull (n : Network) : Bool :=
  decide (n.connections.length ≥ n.maxClient)

/-- `Network.sendTo` (Network.ts:242-246): best-effort single send, a silent
no-op when the id has no live connection.  Sends are modelled as
`(recipient peer id, message)` pairs. -/
def Network.sendTo (n : Network) (id : String) (m : Msg) : List (String × Msg) :=
  match connsGet n.connections id with
  | some _ => [(id, m)]
  | none => []

/-- `Network.sendToAll` (Network.ts:253-258). -/
def Network.sendToAll (n : Network) (m : Msg) : List (String × Msg) :=
  n.connections.map (fun c => (c.id, m))

/-- `Network.sendToAllExcept` (Network.ts:266-271). -/
def Network.sendToAllExcept (n : Network) (id : String) (m : Msg) :
    List (String × Msg) :=
  (n.connections.filter (fun c => c.id != id)).map (fun c => (c.id, m))

/-- `NetworkConnection.cleanclose` (Network.ts:634-639): `clean()` clears the
heartbeat interval and deletes the table entry (612-618), `close()` sends
`Network$CLOSE` to the peer and schedules the transport close (623-629). -/
def cleanclose (n : Network) (cid : String) : Network × List (String × Msg) :=
  ({n with connections := connsDelete n.connections cid}, [(cid, Msg.closeMsg)])

/-- The rejection disjunction of `NetworkConnection.#open` (Network.ts:472-475),
with `&&` binding tighter than `||` as in JS. -/
def rejectCond (n : Network) (cid : String) : Bool :=
  !n.isHosting || !n.acceptConnections || n.isFull ||
    n.blacklist.contains cid || (n.useWhitelist && !n.whitelist.contains cid)

/-- `NetworkConnection.#open` (Network.ts:466-504).  For a receiver: reject
(cleanclose) when `rejectCond`, otherwise fire `HOST_P2P_OPENED`, send
`Network$CONFIRM` on this connection, and `sendTo` this peer one NEWSYNC per
`syncedObjects` entry carrying `JSON.stringify(unproxyfy(proxy))`.  For an
initiator: fire `CLIENT_P2P_OPENED`.  The kept connection's ghost `opened`
flag is set. -/
def openHandler (n : Network) (cid : String) :
    Network × List (String × Msg) × List CB :=
  match connsGet n.connections cid with
  | none => (n, [], [])
  | some c =>
      if c.receiver then
        if rejectCond n cid then
          let (n', ms) := cleanclose n cid
          (n', ms, [])
        else
          ({n with connections := connsSet n.connections {c with opened := true}},
           (cid, Msg.confirm) ::
             n.syncedObjects.flatMap
               (fun kv => n.sendTo cid (.newsync kv.1 (stringify kv.2))),
           [CB.hostOpened])
      else
        ({n with connections := connsSet n.connections {c with opened := true}},
         [], [CB.clientOpened])

/-- `NetworkConnection.#close` (Network.ts:506-524): fire the role-appropriate
closed callback, then `clean()` (idempotent table delete, no re-sent CLOSE). -/
def closeHandler (n : Network) (cid : String) (receiver : Bool) :
    Network × List CB :=
  ({n with connections := connsDelete n.connections cid},
   [if receiver then CB.hostClosed else CB.clientClosed])

/-- `NetworkConnection.#timeout` (Network.ts:453-464): on each 1-second tick,
cleanclose when `timer.greaterThan(6000)` (passed here as `expired`; the
timer arithmetic is modelled by `ConnClock`), otherwise send
`Network$IAMHERE`. -/
def timeoutHandler (n : Network) (cid : String) (expired : Bool) :
    Network × List (String × Msg) :=
  if expired then cleanclose n cid else (n, [(cid, Msg.iamhere)])

/-- `NetworkConnection.#data` (Network.ts:526-605) after the `timer.reset()`
of line 528 (modelled by `ConnClock`): classify and dispatch one inbound
message for the connection with peer id `cid` and role `receiver`.
`Except.error` models an exception escaping the handler (rejecting its
promise). -/
def dataHandler (n : Network) (cid : String) (receiver : Bool) (data : Msg) :
    Except String (Network × List (String × Msg) × List CB) :=
  match data with
  | .closeMsg =>
      let (n', ms) := cleanclose n cid
      .ok (n', ms, [])
  | .iamhere => .ok (n, [], [])
  | .confirm =>
      if !receiver then .ok (n, [], [CB.clientConfirmed])
      else .ok (n, [], [CB.hostReceivedData Msg.confirm])
  | .newsync uuid object =>
      if syncedHas n.syncedObjects uuid then .ok (n, [], [])
      else
        match parseJson object with
        | none => .error "SyntaxError: JSON.parse"
        | some v =>
            .ok ({n with syncedObjects := syncedSet n.syncedObjects uuid v},
                 [], [CB.clientSyncedData uuid])
  | .changesync uuid path value =>
      let obj : JsRef :=
        match syncedGet n.syncedObjects uuid with
        | some plain => .value plain
        | none => .jsnull
      match applyChangeSync obj path value with
      | .error e => .error e
      | .ok newPlain =>
          let n' := {n with syncedObjects := syncedSet n.syncedObjects uuid newPlain}
          if receiver then
            .ok (n', n.sendToAllExcept cid (.changesync uuid path value),
                 [CB.hostSyncedDataChanged uuid path value])
          else
            .ok (n', [], [CB.clientSyncedDataChanged uuid path value])
  | .unsyncMsg uuid =>
      match syncedGet n.syncedObjects uuid with
      | none => .ok (n, [], [])
      | some plain =>
          .ok ({n with syncedObjects := syncedDelete n.syncedObjects uuid},
               [], [CB.clientUnsyncedData plain])
  | .raw v =>
      if receiver then .ok (n, [], [CB.hostReceivedData (Msg.raw v)])
      else .ok (n, [], [CB.clientReceivedData (Msg.raw v)])

/-- The `peer.on('open')` handler of `Network.start` (Network.ts:115-123):
record the assigned identity and fire `PEER_OPENED`. -/
def peerOpenEvent (n : Network) (id : String) : Network × List CB :=
  ({n with peerStarted := true, selfId := id}, [CB.peerOpened id])

/-- The `peer.on('connection')` handler of `Network.start` (Network.ts:125-133):
a receiver-role `NetworkConnection` is created and inserted into the table
unconditionally — before any admission check, which only happens at the
connection's later `open` event. -/
def connectionEvent (n : Network) (cid : String) : Network × List CB :=
  ({n with connections := connsSet n.connections ⟨cid, true, false⟩},
   [CB.peerConnection cid])

/-- `Network.connectTo` (Network.ts:219-234): the four preconditions throw
(leaving the state unchanged); otherwise an initiator-role connection is
inserted and `syncedObjects` is cleared. -/
def Network.connectTo (n : Network) (id : String) : Network :=
  if id == n.selfId || !n.peerStarted || n.isHosting || n.hasConnections then n
  else
    {n with connections := connsSet n.connections ⟨id, false, false⟩,
            syncedObjects := []}

/-- `Network.closeConnection` (Network.ts:278-282): cleanclose the named
connection if it exists. -/
def Network.closeConnection (n : Network) (id : String) :
    Network × List (String × Msg) :=
  match connsGet n.connections id with
  | some _ => cleanclose n id
  | none => (n, [])

/-- `Network.closeAllConnections` (Network.ts:287-292). -/
def Network.closeAllConnections (n : Network) :
    Network × List (String × Msg) :=
  ({n with connections := []}, n.sendToAll Msg.closeMsg)

/-- `Network.enableHosting` (Network.ts:178-192): refused when connections
exist and `abortIfConnections`; otherwise set the flag and close every
connection. -/
def Network.enableHosting (n : Network) (abortIfConnections : Bool) : Network × List (String × Msg) :=
  if !n.isHosting && (!n.hasConnections || !abortIfConnections) then
    ({n with isHosting := true, connections := []}, n.sendToAll Msg.closeMsg)
  else (n, [])

/-- `Network.disableHosting` (Network.ts:199-211). -/
def Network.disableHosting (n : Network) (abortIfConnections : Bool) : Network × List (String × Msg) :=
  if n.isHosting && (!n.hasConnections || !abortIfConnections) then
    ({n with isHosting := false, connections := []}, n.sendToAll Msg.closeMsg)
  else (n, [])

/-- `Network.allow` (Network.ts:342-346): `whitelist.push(id)` — an append,
even when the id is already present. -/
def Network.allow (n : Network) (id : String) : Network :=
  {n with whitelist := n.whitelist ++ [id]}

/-- `Network.deny` (Network.ts:351-361): splice out the first occurrence of
`id` from the whitelist; close an existing connection with that id only when
`useWhitelist && isHosting`. -/
def Network.deny (n : Network) (id : String) : Network × List (String × Msg) :=
  let n' := {n with whitelist := n.whitelist.erase id}
  if n.useWhitelist && n.isHosting then n'.closeConnection id else (n', [])

/-- `Network.ban` (Network.ts:366-372): `blacklist.push(id)`, then
unconditionally close an existing connection with that id. -/
def Network.ban (n : Network) (id : String) : Network × List (String × Msg) :=
  Network.closeConnection {n with blacklist := n.blacklist ++ [id]} id

/-- `Network.unban` (Network.ts:377-384): splice out the first occurrence. -/
def Network.unban (n : Network) (id : String) : Network :=
  {n with blacklist := n.blacklist.erase id}

/-- `Network.syncObject` (Network.ts:386-408): throws when not hosting while
connected (state unchanged); the do-while loop draws random uuids until one
is fresh, so the event's `uuid` stands for the first fresh draw (a stale
draw re-rolls, modelled as a no-op).  The stored value is the deep copy
`JSON.parse(JSON.stringify(object))` (the identity on the modelled values)
wrapped in a change-tracking proxy, and a NEWSYNC carrying the JSON string
is broadcast. -/
def Network.syncObject (n : Network) (uuid : String) (v : PValue) :
    Network × List (String × Msg) × List CB :=
  if !n.isHosting && n.hasConnections then (n, [], [])
  else if syncedHas n.syncedObjects uuid then (n, [], [])
  else
    ({n with syncedObjects := n.syncedObjects ++ [(uuid, v)]},
     n.sendToAll (.newsync uuid (stringify v)),
     [CB.hostSyncedData uuid])

/-- `Network.unsync` (Network.ts:410-425): throws when not hosting while
connected; a no-op for an unknown uuid; otherwise remove the entry,
broadcast UNSYNC and fire `HOST_P2P_UNSYNCED_DATA` with the plain value. -/
def Network.unsync (n : Network) (uuid : String) :
    Network × List (String × Msg) × List CB :=
  if !n.isHosting && n.hasConnections then (n, [], [])
  else
    match syncedGet n.syncedObjects uuid with
    | none => (n, [], [])
    | some plain =>
        ({n with syncedObjects := syncedDelete n.syncedObjects uuid},
         n.sendToAll (.unsyncMsg uuid),
         [CB.hostUnsyncedData plain])

/-- The events a `Network` reacts to: the transport/peer events wired up in
`Network.start` and the `NetworkConnection` constructor, heartbeat ticks,
and the public mutating operations.  `evClose`/`evData` carry the role flag
of the connection object (which exists independently of the table);
`evTick`'s `expired` is the tick's `timer.greaterThan(6000)` value. -/
inductive Ev where
  | evPeerOpen : String → Ev
  | evConnection : String → Ev
  | evOpen : String → Ev
  | evClose : String → Bool → Ev
  | evData : String → Bool → Msg → Ev
  | evTick : String → Bool → Ev
  | opConnectTo : String → Ev
  | opEnableHosting : Bool → Ev
  | opDisableHosting : Bool → Ev
  | opCloseConnection : String → Ev
  | opCloseAllConnections : Ev
  | opAllow : String → Ev
  | opDeny : String → Ev
  | opBan : String → Ev
  | opUnban : String → Ev
  | opSyncObject : String → PValue → Ev
  | opUnsync : String → Ev
deriving DecidableEq, Repr

/-- State transition of one event (the sends and callback firings are
dropped; the individual handlers above retain them).  A handler that throws
does so before mutating any `Network` state, so `evData` keeps the prior
state on error. -/
def step (n : Network) : Ev → Network
  | .evPeerOpen id => (peerOpenEvent n id).1
  | .evConnection id => (connectionEvent n id).1
  | .evOpen id => (openHandler n id).1
  | .evClose id receiver => (closeHandler n id receiver).1
  | .evData id receiver d =>
      match dataHandler n id receiver d with
      | .ok res => res.1
      | .error _ => n
  | .evTick id expired => (timeoutHandler n id expired).1
  | .opConnectTo id => n.connectTo id
  | .opEnableHosting abort => (n.enableHosting abort).1
  | .opDisableHosting abort => (n.disableHosting abort).1
  | .opCloseConnection id => (n.closeConnection id).1
  | .opCloseAllConnections => (n.closeAllConnections).1
  | .opAllow id => n.allow id
  | .opDeny id => (n.deny id).1
  | .opBan id => (n.ban id).1
  | .opUnban id => n.unban id
  | .opSyncObject uuid v => (n.syncObject uuid v).1
  | .opUnsync uuid => (n.unsync uuid).1

/-- A freshly constructed `Network` with the class's field initializers
(Network.ts:82-96), before `start`; `maxClient`, `acceptConnections` and
`useWhitelist` are public mutable fields, so runs are considered from any
assignment of them. -/
def initNetwork (maxClient : Nat) (acceptConnections useWhitelist : Bool) : Network :=
  { maxClient := maxClient
    acceptConnections := acceptConnections
    useWhitelist := useWhitelist }

/-- Run a sequence of events. -/
def run (n : Network) (evs : List Ev) : Network :=
  evs.foldl step n

/-! Helper lemmas about the table operations. -/

theorem connsGet_mem {l : List Conn} {id : String} {c : Conn}
    (h : connsGet l id = some c) : c ∈ l ∧ c.id = id := by
  refine ⟨List.mem_of_find?_eq_some h, ?_⟩
  have := List.find?_some h
  simpa using this

theorem connsDelete_sublist (l : List Conn) (id : String) :
    (connsDelete l id).Sublist l := List.filter_sublist l

theorem connsDelete_of_absent {l : List Conn} {id : String}
    (h : connsGet l id = none) : connsDelete l id = l := by
  rw [connsGet, List.find?_eq_none] at h
  rw [connsDelete, List.filter_eq_self]
  intro c hc
  have := h c hc
  simpa using this

theorem mem_connsSet {l : List Conn} {c x : Conn}
    (h : x ∈ connsSet l c) : x = c ∨ x ∈ l := by
  rw [connsSet] at h
  by_cases ha : l.any (fun y => y.id == c.id) = true
  · rw [if_pos ha] at h
    obtain ⟨y, hy, hxy⟩ := List.mem_map.mp h
    by_cases hid : (y.id == c.id) = true
    · rw [if_pos hid] at hxy
      exact Or.inl hxy.symm
    · rw [if_neg hid] at hxy
      exact Or.inr (hxy ▸ hy)
  · rw [if_neg ha] at h
    rcases List.mem_append.mp h with h | h
    · exact Or.inr h
    · exact Or.inl (List.mem_singleton.mp h)

/-- Peer-id uniqueness of the connection table (a JS `Map` keyed by the peer
id). -/
def idsNodup (l : List Conn) : Prop := (l.map Conn.id).Nodup

theorem idsNodup_connsDelete {l : List Conn} (h : idsNodup l) (id : String) :
    idsNodup (connsDelete l id) :=
  List.Nodup.sublist (List.Sublist.map Conn.id (connsDelete_sublist l id)) h

theorem map_id_replace {l : List Conn} {cid : String} {c : Conn}
    (hid : c.id = cid) :
    (l.map (fun x => if x.id == cid then c else x)).map Conn.id =
      l.map Conn.id := by
  rw [List.map_map]
  apply List.map_congr_left
  intro x _
  by_cases hx : (x.id == cid) = true
  · simp only [Function.comp, hx, if_pos]
    rw [hid, beq_iff_eq.mp hx]
  · simp only [Function.comp, hx]
    simp

theorem idsNodup_connsSet {l : List Conn} {c : Conn} (h : idsNodup l) :
    idsNodup (connsSet l c) := by
  rw [idsNodup, connsSet]
  by_cases ha : l.any (fun y => y.id == c.id) = true
  · rw [if_pos ha, map_id_replace rfl]
    exact h
  · rw [if_neg ha, List.map_append, List.nodup_append]
    refine ⟨h, List.nodup_singleton _, ?_⟩
    intro a hal har
    simp at har
    subst har
    have ha' : l.any (fun y => y.id == c.id) = false := by
      cases hb : l.any (fun y => y.id == c.id)
      · rfl
      · exact absurd hb ha
    rw [List.any_eq_false] at ha'
    obtain ⟨x, hx, hxe⟩ := List.mem_map.mp hal
    exact (ha' x hx) (by simp [hxe])

theorem replace_of_no_match {l : List Conn} {cid : String} {c : Conn}
    (h : ∀ x ∈ l, ¬x.id = cid) :
    l.map (fun x => if x.id == cid then c else x) = l := by
  induction l with
  | nil => rfl
  | cons y ys ih =>
      simp only [List.map_cons]
      rw [if_neg (by simpa using h y (List.mem_cons_self y ys)),
        ih (fun x hx => h x (List.mem_cons_of_mem y hx))]

theorem countP_replace_le_of_false {l : List Conn} {cid : String} {c : Conn}
    {p : Conn → Bool} (hc : p c = false) :
    (l.map (fun x => if x.id == cid then c else x)).countP p ≤ l.countP p := by
  induction l with
  | nil => simp
  | cons y ys ih =>
      simp only [List.map_cons, List.countP_cons]
      by_cases hy : (y.id == cid) = true
      · rw [if_pos hy]
        simp only [hc, Bool.false_eq_true, if_false]
        have hb : (if p y = true then 1 else 0) ≤ 1 := by
          by_cases h : p y = true <;> simp [h]
        omega
      · rw [if_neg hy]
        omega

theorem countP_connsSet_le_of_false {l : List Conn} {c : Conn} {p : Conn → Bool}
    (hc : p c = false) : (connsSet l c).countP p ≤ l.countP p := by
  rw [connsSet]
  by_cases ha : l.any (fun y => y.id == c.id) = true
  · rw [if_pos ha]
    exact countP_replace_le_of_false hc
  · rw [if_neg ha, List.countP_append]
    simp [hc]

theorem countP_lt_length_of_mem {α : Type} {l : List α} {c : α} {p : α → Bool}
    (hm : c ∈ l) (hc : p c = false) : l.countP p < l.length := by
  induction l with
  | nil => cases hm
  | cons y ys ih =>
      rcases List.mem_cons.mp hm with rfl | hm'
      · simp only [List.countP_cons, hc, Bool.false_eq_true, if_false,
          List.length_cons]
        have := List.countP_le_length p (l := ys)
        omega
      · have := ih hm'
        simp only [List.countP_cons, List.length_cons]
        have hb : (if p y = true then 1 else 0) ≤ 1 := by
          by_cases h : p y = true <;> simp [h]
        omega

theorem connsGet_head_eq {y : Conn} {ys : List Conn} {cid : String} {c : Conn}
    (hy : (y.id == cid) = true) (hget : connsGet (y :: ys) cid = some c) :
    y = c := by
  rw [connsGet, List.find?] at hget
  rw [hy] at hget
  exact (Option.some.injEq _ _ ▸ hget)

theorem countP_replace_update {l : List Conn} {cid : String} {c c' : Conn}
    (p : Conn → Bool) (hnd : idsNodup l) (hget : connsGet l cid = some c) :
    (l.map (fun x => if x.id == cid then c' else x)).countP p +
        (if p c = true then 1 else 0) =
      l.countP p + (if p c' = true then 1 else 0) := by
  induction l with
  | nil => simp [connsGet] at hget
  | cons y ys ih =>
      by_cases hy : (y.id == cid) = true
      · have hyc : y = c := connsGet_head_eq hy hget
        have hrest : ∀ x ∈ ys, ¬x.id = cid := by
          intro x hx hxe
          rw [idsNodup, List.map_cons, List.nodup_cons] at hnd
          apply hnd.1
          have hxy : x.id = y.id := by rw [hxe, ← beq_iff_eq.mp hy]
          rw [← hxy]
          exact List.mem_map_of_mem Conn.id hx
        rw [List.map_cons, if_pos hy, replace_of_no_match hrest]
        simp only [List.countP_cons]
        rw [hyc]
        omega
      · have hy' : (y.id == cid) = false := by
          cases h : (y.id == cid)
          · rfl
          · exact absurd h hy
        have hget' : connsGet ys cid = some c := by
          rw [connsGet, List.find?] at hget
          rw [hy'] at hget
          exact hget
        have hnd' : idsNodup ys := by
          rw [idsNodup, List.map_cons, List.nodup_cons] at hnd
          exact hnd.2
        have := ih hnd' hget'
        simp only [List.map_cons, if_neg hy, List.countP_cons]
        omega

theorem connsSet_present {l : List Conn} {c c' : Conn}
    (hget : connsGet l c'.id = some c) :
    connsSet l c' = l.map (fun x => if x.id == c'.id then c' else x) := by
  rw [connsSet, if_pos]
  rw [List.any_eq_true]
  obtain ⟨hm, hi⟩ := connsGet_mem hget
  exact ⟨c, hm, by simp [hi]⟩

theorem countP_connsSet_update {l : List Conn} {c c' : Conn}
    (p : Conn → Bool) (hnd : idsNodup l) (hget : connsGet l c'.id = some c) :
    (connsSet l c').countP p + (if p c = true then 1 else 0) =
      l.countP p + (if p c' = true then 1 else 0) := by
  rw [connsSet_present hget]
  exact countP_replace_update p hnd hget

theorem syncedGet_eq_none_of_not_has {l : List (String × PValue)} {uuid : String}
    (h : syncedHas l uuid = false) : syncedGet l uuid = none := by
  rw [syncedHas, List.any_eq_false] at h
  rw [syncedGet, List.find?_eq_none.mpr h]
  rfl

theorem sendTo_present {n : Network} {cid : String} {c : Conn}
    (hget : connsGet n.connections cid = some c) (m : Msg) :
    n.sendTo cid m = [(cid, m)] := by
  rw [Network.sendTo, hget]

theorem flatMap_sendTo {n : Network} {cid : String} {c : Conn}
    (hget : connsGet n.connections cid = some c)
    (l : List (String × PValue)) (f : String × PValue → Msg) :
    l.flatMap (fun kv => n.sendTo cid (f kv)) = l.map (fun kv => (cid, f kv)) := by
  induction l with
  | nil => rfl
  | cons kv rest ih =>
      rw [List.flatMap_cons, sendTo_present hget, List.map_cons, ih,
        List.singleton_append]

theorem sendToAllExcept_ne {n : Network} {cid : String} {m : Msg} :
    ∀ x ∈ n.sendToAllExcept cid m, x.1 ≠ cid := by
  intro x hx
  rw [Network.sendToAllExcept] at hx
  obtain ⟨cc, hcc, rfl⟩ := List.mem_map.mp hx
  have := (List.mem_filter.mp hcc).2
  simpa using this

/-- `rejectCond` spelled out: admission passes exactly when hosting is on,
connections are accepted, capacity is strictly below `maxClient`, the peer is
not blacklisted, and the whitelist (if in use) lists the peer. -/
theorem rejectCond_eq_false_iff (n : Network) (cid : String) :
    rejectCond n cid = false ↔
      n.isHosting = true ∧ n.acceptConnections = true ∧
      n.connections.length < n.maxClient ∧
      n.blacklist.contains cid = false ∧
      (n.useWhitelist = false ∨ n.whitelist.contains cid = true) := by
  rw [rejectCond, Network.isFull]
  cases n.isHosting <;> cases n.acceptConnections <;>
    cases hbl : n.blacklist.contains cid <;> cases n.useWhitelist <;>
    cases hwl : n.whitelist.contains cid <;>
    simp [Nat.lt_iff_le_and_ne, not_le]

theorem applyChangeSync_jsnull (p : List String) (val : PValue) :
    applyChangeSync .jsnull p val =
      .error "TypeError: cannot set properties of null" := by
  cases p <;> rfl

/-- The CHANGESYNC branch raises on every message whose uuid is not in
`syncedObjects`: `unproxyfy(syncedObjects.get(uuid))` is `unproxyfy(undefined)
= null` (Network.ts:41-43, 559) and the subsequent property assignment on
`null` throws (Network.ts:565). -/
theorem changesync_unknown_general (n : Network) (cid : String)
    (receiver : Bool) (uuid : String) (p : List String) (val : PValue)
    (h : syncedHas n.syncedObjects uuid = false) :
    dataHandler n cid receiver (.changesync uuid p val) =
      .error "TypeError: cannot set properties of null" := by
  simp only [dataHandler, syncedGet_eq_none_of_not_has h, applyChangeSync_jsnull]

/-- Claim C1: the claim (and spec) say an inbound CHANGESYNC whose uuid is
absent from `syncedObjects` is a silent no-op; the code instead throws a
`TypeError` before doing anything else.  This theorem evaluates the handler
on the failing input — a CHANGESYNC for uuid `"u0"` delivered to a freshly
constructed network that tracks no synced object — and shows the raised
error, establishing the divergence (the guard present in the NEWSYNC and
UNSYNC branches, Network.ts:542 and 581, is missing from the CHANGESYNC
branch). -/
theorem changesync_unknown_uuid_throws :
    dataHandler (initNetwork 15 true true) "peer" true
        (.changesync "u0" ["a"] (.vnum 1)) =
      .error "TypeError: cannot set properties of null" := by
  rfl

theorem openHandler_reject {n : Network} {cid : String} {c : Conn}
    (hget : connsGet n.connections cid = some c) (hrecv : c.receiver = true)
    (hr : rejectCond n cid = true) :
    openHandler n cid =
      ({n with connections := connsDelete n.connections cid},
       [(cid, Msg.closeMsg)], []) := by
  simp only [openHandler, hget, hrecv, hr, cleanclose, if_true]

theorem openHandler_accepted {n : Network} {cid : String} {c : Conn}
    (hget : connsGet n.connections cid = some c) (hrecv : c.receiver = true)
    (hr : rejectCond n cid = false) :
    openHandler n cid =
      ({n with connections := connsSet n.connections {c with opened := true}},
       (cid, Msg.confirm) ::
         n.syncedObjects.map (fun kv => (cid, Msg.newsync kv.1 (stringify kv.2))),
       [CB.hostOpened]) := by
  simp only [openHandler, hget, hrecv, hr, Bool.false_eq_true, if_false,
    if_true, flatMap_sendTo hget]

/-- Claim C2: at the transport `open` event of a receiver-role connection the
peer is admitted (observable as `Network$CONFIRM` being sent to it) iff
`isHosting` and `acceptConnections` hold, the table size is strictly below
`maxClient`, the peer id is not blacklisted, and the whitelist — when in use
— lists it; any rejection goes straight through `cleanclose` (the entry is
deleted and only `Network$CLOSE` is sent) with no `HOST_P2P_OPENED` callback
and no CONFIRM. -/
theorem host_admission_policy (n : Network) (cid : String) (c : Conn)
    (hget : connsGet n.connections cid = some c) (hrecv : c.receiver = true) :
    (((cid, Msg.confirm) ∈ (openHandler n cid).2.1) ↔
        (n.isHosting = true ∧ n.acceptConnections = true ∧
         n.connections.length < n.maxClient ∧
         n.blacklist.contains cid = false ∧
         (n.useWhitelist = false ∨ n.whitelist.contains cid = true)))
    ∧ (rejectCond n cid = true →
        (openHandler n cid).1.connections = connsDelete n.connections cid ∧
        (openHandler n cid).2.1 = [(cid, Msg.closeMsg)] ∧
        (openHandler n cid).2.2 = []) := by
  by_cases hr : rejectCond n cid = true
  · rw [openHandler_reject hget hrecv hr]
    refine ⟨?_, fun _ => ⟨rfl, rfl, rfl⟩⟩
    constructor
    · intro hmem
      exact absurd (Prod.mk.injEq .. ▸ (List.mem_singleton.mp hmem)) (by simp)
    · intro hrhs
      have := (rejectCond_eq_false_iff n cid).mpr hrhs
      rw [this] at hr
      exact absurd hr (by simp)
  · have hr' : rejectCond n cid = false := by
      cases h : rejectCond n cid
      · rfl
      · exact absurd h hr
    rw [openHandler_accepted hget hrecv hr']
    refine ⟨?_, fun hcontra => absurd hcontra (by rw [hr']; simp)⟩
    constructor
    · intro _
      exact (rejectCond_eq_false_iff n cid).mp hr'
    · intro _
      exact List.mem_cons_self _ _

/-- A hosting network with one pending receiver connection, under capacity. -/
def c2Net : Network :=
  { isHosting := true, maxClient := 2, useWhitelist := false,
    connections := [⟨"p", true, false⟩] }

/-- Witness for C2 at a concrete admitted peer. -/
theorem host_admission_policy_witness :
    connsGet c2Net.connections "p" = some ⟨"p", true, false⟩ ∧
    ("p", Msg.confirm) ∈ (openHandler c2Net "p").2.1 :=
  ⟨by rfl,
   (host_admission_policy c2Net "p" ⟨"p", true, false⟩ (by rfl) rfl).1.mpr
     (by refine ⟨rfl, rfl, ?_, rfl, Or.inl rfl⟩; decide)⟩

/-- Claim C3: a CHANGESYNC for a tracked uuid assigns the value at the path
inside the underlying plain object (read back by `getPath`); a receiver-role
(host-side) connection re-sends the identical message to every other
connection — never to the originator — and fires
`HOST_P2P_SYNCED_DATA_CHANGED (uuid, path, value)`, while an initiator-role
(client-side) connection sends nothing and fires only
`CLIENT_P2P_SYNCED_DATA_CHANGED`; the mutation is applied to the plain
object behind the proxy (Network.ts:559), so the proxy's change callback
never runs and no CHANGESYNC is echoed to the originator. -/
theorem changesync_known_routing (n : Network) (cid : String) (receiver : Bool)
    (uuid : String) (p : List String) (val plain w : PValue)
    (hget : syncedGet n.syncedObjects uuid = some plain)
    (hp : p ≠ [])
    (happly : applyChangeSync (.value plain) p val = .ok w) :
    dataHandler n cid receiver (.changesync uuid p val) =
      .ok ({n with syncedObjects := syncedSet n.syncedObjects uuid w},
           if receiver then n.sendToAllExcept cid (.changesync uuid p val) else [],
           [if receiver then CB.hostSyncedDataChanged uuid p val
            else CB.clientSyncedDataChanged uuid p val])
    ∧ getPath w p = some val
    ∧ (∀ x ∈ (if receiver then n.sendToAllExcept cid (Msg.changesync uuid p val)
          else ([] : List (String × Msg))), x.1 ≠ cid) := by
  refine ⟨?_,
    getPath_setPath p plain val w (applyChangeSync_eq_setPath p plain val w hp happly), ?_⟩
  · simp only [dataHandler, hget, happly]
    by_cases hrec : receiver = true <;> simp [hrec]
  · intro x hx
    by_cases hrec : receiver = true
    · rw [if_pos hrec] at hx
      exact sendToAllExcept_ne x hx
    · rw [if_neg hrec] at hx
      cases hx

/-- The host network of the fan-out scenario: clients `"A"` and `"B"`, one
synced object `{toto:{lolo:2}}`. -/
def c3Net : Network :=
  { isHosting := true,
    connections := [⟨"A", true, true⟩, ⟨"B", true, true⟩],
    syncedObjects :=
      [("u", .vobj (.cons "toto" (.vobj (.cons "lolo" (.vnum 2) .nil)) .nil))] }

/-- The plain value synced in `c3Net` and its state after the write. -/
def c3Plain : PValue := .vobj (.cons "toto" (.vobj (.cons "lolo" (.vnum 2) .nil)) .nil)

def c3PlainAfter : PValue := .vobj (.cons "toto" (.vobj (.cons "lolo" (.vnum 3) .nil)) .nil)

/-- Witness for C3: client A's `proxy.toto.lolo = 3` arriving at the host. -/
theorem changesync_known_routing_witness :
    syncedGet c3Net.syncedObjects "u" = some c3Plain ∧
    applyChangeSync (.value c3Plain) ["toto", "lolo"] (.vnum 3) = .ok c3PlainAfter ∧
    getPath c3PlainAfter ["toto", "lolo"] = some (.vnum 3) :=
  ⟨by rfl, by rfl,
   (changesync_known_routing c3Net "A" true "u" ["toto", "lolo"] (.vnum 3)
      c3Plain c3PlainAfter (by rfl) (by simp) (by rfl)).2.1⟩

/-- Claim C7: when a receiver connection passes admission, the sends of the
`open` handler are exactly `Network$CONFIRM` followed by one NEWSYNC per
`syncedObjects` entry carrying `JSON.stringify` of the unproxied value, all
addressed to that peer only (`sendTo`, not broadcast); and a NEWSYNC whose
uuid is already tracked is ignored entirely — same state, no send, no
callback (Network.ts:542). -/
theorem latejoin_snapshot (n : Network) (cid : String) (c : Conn)
    (hget : connsGet n.connections cid = some c) (hrecv : c.receiver = true)
    (hadm : rejectCond n cid = false) :
    ((openHandler n cid).2.1 =
        (cid, Msg.confirm) ::
          n.syncedObjects.map (fun kv => (cid, Msg.newsync kv.1 (stringify kv.2)))
      ∧ (openHandler n cid).2.1.length = n.syncedObjects.length + 1
      ∧ ∀ x ∈ (openHandler n cid).2.1, x.1 = cid)
    ∧ (∀ (n₂ : Network) (cid₂ : String) (r : Bool) (uuid obj : String),
        syncedHas n₂.syncedObjects uuid = true →
        dataHandler n₂ cid₂ r (.newsync uuid obj) = .ok (n₂, [], [])) := by
  constructor
  · rw [openHandler_accepted hget hrecv hadm]
    refine ⟨rfl, by simp, ?_⟩
    intro x hx
    rcases List.mem_cons.mp hx with rfl | hx'
    · rfl
    · obtain ⟨kv, _, rfl⟩ := List.mem_map.mp hx'
      rfl
  · intro n₂ cid₂ r uuid obj h
    simp only [dataHandler, h, if_true]

/-- A hosting network with two live synced objects and one pending
late-joiner. -/
def c7Net : Network :=
  { isHosting := true, useWhitelist := false,
    connections := [⟨"late", true, false⟩],
    syncedObjects := [("u1", .vnum 1), ("u2", .vnum 2)] }

/-- Witness for C7: the late joiner receives CONFIRM plus exactly two
NEWSYNC messages. -/
theorem latejoin_snapshot_witness :
    rejectCond c7Net "late" = false ∧
    (openHandler c7Net "late").2.1.length = c7Net.syncedObjects.length + 1 :=
  ⟨by decide,
   (latejoin_snapshot c7Net "late" ⟨"late", true, false⟩ (by rfl) rfl
      (by decide)).1.2.1⟩

theorem closeConnection_fst (n : Network) (id : String) :
    (n.closeConnection id).1 =
      {n with connections := connsDelete n.connections id} := by
  rw [Network.closeConnection]
  cases hg : connsGet n.connections id
  · simp [connsDelete_of_absent hg]
  · rfl

/-- Claim C10 (amended): `ban(id)` appends to the blacklist and
unconditionally closes any existing connection with that id; `deny(id)`
removes the first occurrence of id from the whitelist, but closes an
existing connection only when `useWhitelist && isHosting` — it is not an
unconditional side effect (Network.ts:358-359). -/
theorem deny_ban_behaviour (n : Network) (id : String) :
    ((n.ban id).1.blacklist = n.blacklist ++ [id]
      ∧ (n.ban id).1.connections = connsDelete n.connections id)
    ∧ ((n.deny id).1.whitelist = n.whitelist.erase id
      ∧ ((n.useWhitelist && n.isHosting) = true →
          (n.deny id).1.connections = connsDelete n.connections id)
      ∧ ((n.useWhitelist && n.isHosting) = false →
          (n.deny id).1.connections = n.connections)) := by
  refine ⟨⟨?_, ?_⟩, ?_, ?_, ?_⟩
  · rw [Network.ban, closeConnection_fst]
  · rw [Network.ban, closeConnection_fst]
  · rw [Network.deny]
    by_cases hc : (n.useWhitelist && n.isHosting) = true
    · rw [if_pos hc, closeConnection_fst]
    · rw [if_neg hc]
  · intro hc
    rw [Network.deny, if_pos hc, closeConnection_fst]
  · intro hc
    rw [Network.deny, if_neg (by rw [hc]; simp)]

/-- A hosting network with the whitelist disabled and a live connection. -/
def c10Net : Network :=
  { isHosting := true, useWhitelist := false,
    connections := [⟨"x", true, true⟩] }

/-- Counterexample to C10 as stated: with `useWhitelist = false`, `deny("x")`
leaves the existing connection with `"x"` fully intact — the force-close is
conditional, not unconditional. -/
theorem deny_leaves_connection_open :
    (c10Net.deny "x").1.connections = [⟨"x", true, true⟩] ∧
    connsGet (c10Net.deny "x").1.connections "x" = some ⟨"x", true, true⟩ := by
  constructor <;> rfl

/-- A hosting network with the whitelist in use and a live connection. -/
def c10NetB : Network :=
  { isHosting := true, useWhitelist := true, whitelist := ["x"],
    connections := [⟨"x", true, true⟩] }

/-- Witness for C10: `ban` always closes; `deny` closes when
`useWhitelist && isHosting`. -/
theorem deny_ban_behaviour_witness :
    (c10NetB.useWhitelist && c10NetB.isHosting) = true ∧
    (c10NetB.deny "x").1.connections = connsDelete c10NetB.connections "x" ∧
    (c10NetB.ban "x").1.connections = connsDelete c10NetB.connections "x" :=
  ⟨rfl, (deny_ban_behaviour c10NetB "x").2.2.1 rfl,
   (deny_ban_behaviour c10NetB "x").1.2⟩

/-- The four admission-list operations (`allow`/`deny`/`ban`/`unban`), for
reasoning about arbitrary call sequences. -/
inductive ListOp where
  | allowOp : String → ListOp
  | denyOp : String → ListOp
  | banOp : String → ListOp
  | unbanOp : String → ListOp
deriving DecidableEq, Repr

def ListOp.toEv : ListOp → Ev
  | .allowOp id => .opAllow id
  | .denyOp id => .opDeny id
  | .banOp id => .opBan id
  | .unbanOp id => .opUnban id

def applyListOps (n : Network) (ops : List ListOp) : Network :=
  run n (ops.map ListOp.toEv)

/-- Follows the claim's words: set-insertion (a present id is not added
again). -/
def specInsert (s : List String) (id : String) : List String :=
  if id ∈ s then s else s ++ [id]

/-- Follows the claim's words: set-removal (every occurrence goes). -/
def specRemove (s : List String) (id : String) : List String :=
  s.filter (fun x => x != id)

/-- Follows the claim's words: the whitelist/blacklist pair evolved with set
semantics by one operation. -/
def specSetStep : List String × List String → ListOp → List String × List String
  | (w, b), .allowOp id => (specInsert w id, b)
  | (w, b), .denyOp id => (specRemove w id, b)
  | (w, b), .banOp id => (w, specInsert b id)
  | (w, b), .unbanOp id => (w, specRemove b id)

def specSetRun (wb : List String × List String) (ops : List ListOp) :
    List String × List String :=
  ops.foldl specSetStep wb

/-- Discipline under which the code's JS arrays (push / splice of the first
occurrence) coincide with sets: no operation inserts an id its list already
holds. -/
def noDupInserts : List String → List String → List ListOp → Bool
  | _, _, [] => true
  | w, b, .allowOp id :: rest =>
      !w.contains id && noDupInserts (w ++ [id]) b rest
  | w, b, .denyOp id :: rest => noDupInserts (w.erase id) b rest
  | w, b, .banOp id :: rest =>
      !b.contains id && noDupInserts w (b ++ [id]) rest
  | w, b, .unbanOp id :: rest => noDupInserts w (b.erase id) rest

theorem deny_fst_fields (n : Network) (id : String) :
    (n.deny id).1.whitelist = n.whitelist.erase id ∧
    (n.deny id).1.blacklist = n.blacklist ∧
    (n.deny id).1.useWhitelist = n.useWhitelist := by
  rw [Network.deny]
  by_cases hc : (n.useWhitelist && n.isHosting) = true
  · rw [if_pos hc, closeConnection_fst]
    exact ⟨rfl, rfl, rfl⟩
  · rw [if_neg hc]
    exact ⟨rfl, rfl, rfl⟩

theorem ban_fst_fields (n : Network) (id : String) :
    (n.ban id).1.whitelist = n.whitelist ∧
    (n.ban id).1.blacklist = n.blacklist ++ [id] ∧
    (n.ban id).1.useWhitelist = n.useWhitelist := by
  rw [Network.ban, closeConnection_fst]
  exact ⟨rfl, rfl, rfl⟩

theorem nodup_append_fresh {s : List String} {id : String}
    (hs : s.Nodup) (h : s.contains id = false) : (s ++ [id]).Nodup := by
  rw [List.nodup_append]
  refine ⟨hs, List.nodup_singleton _, ?_⟩
  intro a ha hmem
  rw [List.mem_singleton] at hmem
  subst hmem
  have := List.elem_eq_true_of_mem ha
  rw [show s.contains a = List.elem a s from rfl] at h
  rw [h] at this
  cases this

theorem specInsert_of_fresh {s : List String} {id : String}
    (h : s.contains id = false) : specInsert s id = s ++ [id] := by
  rw [specInsert, if_neg]
  intro hmem
  have := List.elem_eq_true_of_mem hmem
  rw [show s.contains id = List.elem id s from rfl] at h
  rw [h] at this
  cases this

/-- Applying a sequence of list operations to the code's arrays produces,
membership-wise, the set evolution of the claim — provided the starting
lists are duplicate-free and no operation inserts an id already present. -/
theorem lists_eq_spec (ops : List ListOp) :
    ∀ (n : Network), n.whitelist.Nodup → n.blacklist.Nodup →
      noDupInserts n.whitelist n.blacklist ops = true →
      (applyListOps n ops).whitelist = (specSetRun (n.whitelist, n.blacklist) ops).1
      ∧ (applyListOps n ops).blacklist = (specSetRun (n.whitelist, n.blacklist) ops).2
      ∧ (applyListOps n ops).useWhitelist = n.useWhitelist := by
  induction ops with
  | nil => intro n _ _ _; exact ⟨rfl, rfl, rfl⟩
  | cons op rest ih =>
      intro n hw hb hnd
      cases op with
      | allowOp id =>
          rw [noDupInserts, Bool.and_eq_true] at hnd
          have h1 : n.whitelist.contains id = false := by
            cases h : n.whitelist.contains id
            · rfl
            · rw [h] at hnd; exact absurd hnd.1 (by simp)
          have hih := ih (n.allow id) (nodup_append_fresh hw h1) hb hnd.2
          have e2 : specSetRun (n.whitelist, n.blacklist) (.allowOp id :: rest) =
              specSetRun ((n.allow id).whitelist, (n.allow id).blacklist) rest := by
            show specSetRun (specInsert n.whitelist id, n.blacklist) rest = _
            rw [specInsert_of_fresh h1]
            rfl
          rw [show applyListOps n (ListOp.allowOp id :: rest) =
              applyListOps (n.allow id) rest from rfl, e2]
          exact hih
      | denyOp id =>
          have hfields := deny_fst_fields n id
          have hw' : (n.deny id).1.whitelist.Nodup := by
            rw [hfields.1]; exact List.Nodup.erase id hw
          have hb' : (n.deny id).1.blacklist.Nodup := by
            rw [hfields.2.1]; exact hb
          have hnd' : noDupInserts (n.deny id).1.whitelist
              (n.deny id).1.blacklist rest = true := by
            rw [hfields.1, hfields.2.1]; exact hnd
          have hih := ih (n.deny id).1 hw' hb' hnd'
          have e2 : specSetRun (n.whitelist, n.blacklist) (.denyOp id :: rest) =
              specSetRun ((n.deny id).1.whitelist, (n.deny id).1.blacklist) rest := by
            show specSetRun (specRemove n.whitelist id, n.blacklist) rest = _
            rw [hfields.1, hfields.2.1, specRemove,
              ← List.Nodup.erase_eq_filter hw id]
          rw [show applyListOps n (ListOp.denyOp id :: rest) =
              applyListOps (n.deny id).1 rest from rfl, e2]
          exact ⟨hih.1, hih.2.1, hih.2.2.trans hfields.2.2⟩
      | banOp id =>
          rw [noDupInserts, Bool.and_eq_true] at hnd
          have h1 : n.blacklist.contains id = false := by
            cases h : n.blacklist.contains id
            · rfl
            · rw [h] at hnd; exact absurd hnd.1 (by simp)
          have hfields := ban_fst_fields n id
          have hw' : (n.ban id).1.whitelist.Nodup := by
            rw [hfields.1]; exact hw
          have hb' : (n.ban id).1.blacklist.Nodup := by
            rw [hfields.2.1]; exact nodup_append_fresh hb h1
          have hnd' : noDupInserts (n.ban id).1.whitelist
              (n.ban id).1.blacklist rest = true := by
            rw [hfields.1, hfields.2.1]; exact hnd.2
          have hih := ih (n.ban id).1 hw' hb' hnd'
          have e2 : specSetRun (n.whitelist, n.blacklist) (.banOp id :: rest) =
              specSetRun ((n.ban id).1.whitelist, (n.ban id).1.blacklist) rest := by
            show specSetRun (n.whitelist, specInsert n.blacklist id) rest = _
            rw [hfields.1, hfields.2.1, specInsert_of_fresh h1]
          rw [show applyListOps n (ListOp.banOp id :: rest) =
              applyListOps (n.ban id).1 rest from rfl, e2]
          exact ⟨hih.1, hih.2.1, hih.2.2.trans hfields.2.2⟩
      | unbanOp id =>
          have hih := ih (n.unban id) hw (List.Nodup.erase id hb) hnd
          have e2 : specSetRun (n.whitelist, n.blacklist) (.unbanOp id :: rest) =
              specSetRun ((n.unban id).whitelist, (n.unban id).blacklist) rest := by
            show specSetRun (n.whitelist, specRemove n.blacklist id) rest = _
            rw [show (n.unban id).blacklist = n.blacklist.erase id from rfl,
              specRemove, ← List.Nodup.erase_eq_filter hb id]
            rfl
          rw [show applyListOps n (ListOp.unbanOp id :: rest) =
              applyListOps (n.unban id) rest from rfl, e2]
          exact hih

/-- Admission observed through the sends of the open handler equals the
rejection condition being false — the lists are consulted at open time. -/
theorem confirm_mem_iff {n : Network} {cid : String} {c : Conn}
    (hget : connsGet n.connections cid = some c) (hrecv : c.receiver = true) :
    ((cid, Msg.confirm) ∈ (openHandler n cid).2.1) ↔ rejectCond n cid = false := by
  by_cases hr : rejectCond n cid = true
  · rw [openHandler_reject hget hrecv hr]
    constructor
    · intro hmem
      exact absurd (Prod.mk.injEq .. ▸ (List.mem_singleton.mp hmem)) (by simp)
    · intro hf
      rw [hf] at hr
      exact absurd hr (by simp)
  · have hr' : rejectCond n cid = false := by
      cases h : rejectCond n cid
      · rfl
      · exact absurd h hr
    rw [openHandler_accepted hget hrecv hr']
    exact ⟨fun _ => hr', fun _ => List.mem_cons_self _ _⟩

/-- Claim C6 (amended): at connection-open time, with hosting on, connections
accepted and capacity available, the admission decision equals the formula
`!blacklist.contains(id) && (!useWhitelist || whitelist.contains(id))`
evaluated over the code's array state at that moment; and the array state
coincides with set semantics only for operation sequences that never insert
an id already present (the arrays are JS arrays mutated by `push` and
first-occurrence `splice`, so duplicate insertions break the set reading —
see the counterexample). -/
theorem admission_list_semantics :
    (∀ (n : Network) (cid : String) (c : Conn),
        connsGet n.connections cid = some c → c.receiver = true →
        n.isHosting = true → n.acceptConnections = true →
        n.connections.length < n.maxClient →
        (((cid, Msg.confirm) ∈ (openHandler n cid).2.1) ↔
          (!n.blacklist.contains cid &&
            (!n.useWhitelist || n.whitelist.contains cid)) = true))
    ∧ (∀ (ops : List ListOp) (n : Network) (id : String),
        n.whitelist.Nodup → n.blacklist.Nodup →
        noDupInserts n.whitelist n.blacklist ops = true →
        (!(applyListOps n ops).blacklist.contains id &&
          (!(applyListOps n ops).useWhitelist ||
            (applyListOps n ops).whitelist.contains id))
          = (!(specSetRun (n.whitelist, n.blacklist) ops).2.contains id &&
             (!n.useWhitelist ||
               (specSetRun (n.whitelist, n.blacklist) ops).1.contains id))) := by
  constructor
  · intro n cid c hget hrecv hh ha hcap
    rw [confirm_mem_iff hget hrecv, rejectCond_eq_false_iff]
    cases hbl : n.blacklist.contains cid <;>
      cases huw : n.useWhitelist <;>
      cases hwl : n.whitelist.contains cid <;>
      simp [hh, ha, hcap]
  · intro ops n id hw hb hnd
    have h := lists_eq_spec ops n hw hb hnd
    rw [h.1, h.2.1, h.2.2]

/-- A hosting network accepting connections, whitelist in use, lists empty. -/
def c6Net : Network := { isHosting := true }

def c6Ops : List ListOp := [.allowOp "x", .allowOp "x", .denyOp "x"]

/-- Counterexample to C6 as stated: after `allow(x); allow(x); deny(x)` the
code still admits `"x"` at open time (the whitelist array retains one `"x"`,
since `deny` splices out a single occurrence), while the set semantics of
the claim removes `x` entirely and refuses it. -/
theorem allow_allow_deny_diverges :
    (("x", Msg.confirm) ∈
      (openHandler ((connectionEvent (applyListOps c6Net c6Ops) "x").1) "x").2.1)
    ∧ (!(specSetRun (c6Net.whitelist, c6Net.blacklist) c6Ops).2.contains "x" &&
        (!c6Net.useWhitelist ||
          (specSetRun (c6Net.whitelist, c6Net.blacklist) c6Ops).1.contains "x"))
        = false := by
  constructor
  · decide
  · rfl

/-- Witness for C6: a duplicate-free sequence where the array and set
semantics agree, and a concrete admission read off the lists. -/
theorem admission_list_semantics_witness :
    ((!(applyListOps c6Net [.allowOp "a", .banOp "b"]).blacklist.contains "a" &&
        (!(applyListOps c6Net [.allowOp "a", .banOp "b"]).useWhitelist ||
          (applyListOps c6Net [.allowOp "a", .banOp "b"]).whitelist.contains "a"))
      = (!(specSetRun (c6Net.whitelist, c6Net.blacklist)
            [.allowOp "a", .banOp "b"]).2.contains "a" &&
         (!c6Net.useWhitelist ||
           (specSetRun (c6Net.whitelist, c6Net.blacklist)
             [.allowOp "a", .banOp "b"]).1.contains "a")))
    ∧ ("p" , Msg.confirm) ∈ (openHandler c2Net "p").2.1 :=
  ⟨admission_list_semantics.2 [.allowOp "a", .banOp "b"] c6Net "a"
      List.nodup_nil List.nodup_nil (by decide),
   (admission_list_semantics.1 c2Net "p" ⟨"p", true, false⟩ (by rfl) rfl rfl rfl
      (by decide)).mpr (by decide)⟩

/-- Result of the `get` trap of `proxyfy` (Network.ts:16-25): a nested
object-typed (non-null) value comes back as a proxy — the cached one or a
fresh one — whose path extends the parent handle's path by the read key; any
other value is returned as-is; a missing property reads as `undefined`.  A
proxy handle is identified by its path from the wrap root (the data is a
tree, so paths identify the plain sub-objects). -/
inductive GetResult where
  | proxyRes : List String → GetResult
  | prim : PValue → GetResult
  | undefinedRes : GetResult
deriving DecidableEq, Repr

def proxyGet (root : PValue) (p : List String) (key : String) : GetResult :=
  match getPath root (p ++ [key]) with
  | some (.vobj _) => .proxyRes (p ++ [key])
  | some v => .prim v
  | none => .undefinedRes

/-- The `set` trap of `proxyfy` (Network.ts:27-31): `Reflect.set` writes
through to the plain target at the handle's path, then calls
`onchange(root, [...path, property], value)` once; the second component is
the list of `onchange` invocations this write performs. -/
def proxySet (root : PValue) (p : List String) (key : String) (v : PValue) :
    Option PValue × List (List String × PValue) :=
  (setPath root (p ++ [key]) v, [(p ++ [key], v)])

/-- The proxy handles a wrap tree over `root` can hand out: the root proxy
(`proxyfy` is applied to objects) and every proxy returned by reading a
nested object through an existing handle. -/
inductive ReachableHandle (root : PValue) : List String → Prop where
  | base : (∃ fs, root = .vobj fs) → ReachableHandle root []
  | child : ∀ (p : List String) (key : String) (q : List String),
      ReachableHandle root p → proxyGet root p key = .proxyRes q →
      ReachableHandle root q

theorem reachable_isObj {root : PValue} {p : List String}
    (h : ReachableHandle root p) : ∃ fs, getPath root p = some (.vobj fs) := by
  induction h with
  | base hobj =>
      obtain ⟨fs, rfl⟩ := hobj
      exact ⟨fs, rfl⟩
  | child p key q _ hpg _ =>
      rw [proxyGet] at hpg
      cases hg : getPath root (p ++ [key]) with
      | none => rw [hg] at hpg; cases hpg
      | some v =>
          rw [hg] at hpg
          cases v with
          | vobj fs =>
              simp at hpg
              exact ⟨fs, hpg ▸ hg⟩
          | vnull => simp at hpg
          | vbool b => simp at hpg
          | vnum i => simp at hpg
          | vstr s => simp at hpg

theorem setPath_below_obj (p : List String) :
    ∀ (root : PValue) (fs : PFields) (key : String) (v : PValue),
      getPath root p = some (.vobj fs) →
      ∃ w, setPath root (p ++ [key]) v = some w := by
  induction p with
  | nil =>
      intro root fs key v hg
      rw [getPath] at hg
      cases hg
      exact ⟨_, rfl⟩
  | cons k ks ih =>
      intro root fs key v hg
      cases root with
      | vobj gs =>
          rw [getPath] at hg
          cases hob : gs.objGet k with
          | none => simp [hob] at hg
          | some u =>
              simp only [hob] at hg
              obtain ⟨w, hw⟩ := ih u fs key v hg
              refine ⟨.vobj (gs.objSet k w), ?_⟩
              cases hks : ks ++ [key] with
              | nil => exact absurd hks (by simp)
              | cons q qs =>
                  have hcons : (k :: ks) ++ [key] = k :: q :: qs := by
                    rw [List.cons_append, hks]
                  rw [hks] at hw
                  simp only [hcons, setPath, hob, hw]
                  rfl
      | vnull => simp [getPath] at hg
      | vbool b => simp [getPath] at hg
      | vnum i => simp [getPath] at hg
      | vstr st => simp [getPath] at hg

/-- The example tree of the claim, before and after the write. -/
def c8Root : PValue := .vobj (.cons "a" (.vobj (.cons "b" (.vnum 1) .nil)) .nil)

def c8RootAfter : PValue := .vobj (.cons "a" (.vobj (.cons "b" (.vnum 2) .nil)) .nil)

/-- Claim C8: on `proxyfy({a:{b:1}}, cb)`, reading `.a` yields the nested
proxy with handle path `["a"]` and writing `b := 2` through it performs the
write on the underlying plain structure and invokes the callback exactly
once with path `["a","b"]` and value `2`; in general, a write through any
reachable proxy handle reports the ordered key path from the wrap root to
the written property and lands at that path in the plain tree. -/
theorem proxy_path_reporting :
    (proxyGet c8Root [] "a" = .proxyRes ["a"]
      ∧ proxySet c8Root ["a"] "b" (.vnum 2) =
          (some c8RootAfter, [(["a", "b"], .vnum 2)]))
    ∧ (∀ (root : PValue) (p : List String) (key : String) (v : PValue),
        ReachableHandle root p →
        (proxySet root p key v).2 = [(p ++ [key], v)] ∧
        ∃ w, (proxySet root p key v).1 = some w ∧
          getPath w (p ++ [key]) = some v) := by
  refine ⟨⟨by rfl, by rfl⟩, ?_⟩
  intro root p key v hreach
  refine ⟨rfl, ?_⟩
  obtain ⟨fs, hg⟩ := reachable_isObj hreach
  obtain ⟨w, hset⟩ := setPath_below_obj p root fs key v hg
  exact ⟨w, hset, getPath_setPath (p ++ [key]) root v w hset⟩

/-- Witness for C8: the general part applied to the nested handle `["a"]` of
the example tree. -/
theorem proxy_path_reporting_witness :
    (proxySet c8Root ["a"] "b" (.vnum 2)).2 = [(["a", "b"], .vnum 2)] ∧
    ∃ w, (proxySet c8Root ["a"] "b" (.vnum 2)).1 = some w ∧
      getPath w ["a", "b"] = some (.vnum 2) :=
  proxy_path_reporting.2 c8Root ["a"] "b" (.vnum 2)
    (ReachableHandle.child [] "a" ["a"]
      (ReachableHandle.base ⟨.cons "a" (.vobj (.cons "b" (.vnum 1) .nil)) .nil, rfl⟩)
      (by rfl))

/-- An argument handed to `unproxyfy`, relative to the cache state after one
wrap tree over a root value: a proxy created for the sub-object at a path, a
plain sub-object that has been wrapped (the cache stores symmetric pairs,
`proxyCache.set(object, proxy); proxyCache.set(proxy, object)` at
Network.ts:34-35), or an object foreign to the cache. -/
inductive CacheArg where
  | proxyAt : List String → CacheArg
  | plainAt : List String → CacheArg
  | other : CacheArg
deriving DecidableEq, Repr

/-- What `proxyCache.get(...) ?? null` yields. -/
inductive CacheVal where
  | plainVal : PValue → CacheVal
  | proxyVal : List String → CacheVal
  | nullVal : CacheVal
deriving DecidableEq, Repr

/-- `unproxyfy` (Network.ts:41-43): a single cache lookup with `?? null`,
over the cache of one wrap tree rooted at `root` in which proxies exist
exactly for the paths in `created` (`[]` for the root proxy, plus every
nested-object path read through a proxy).  A tracked proxy maps to the plain
sub-object currently at its path (mutations happen in place on the plain
tree); a tracked plain object maps back to its proxy; anything else misses
and gives `null`. -/
def unproxyfy (root : PValue) (created : List (List String)) :
    CacheArg → CacheVal
  | .proxyAt p =>
      if p ∈ created then (getPath root p).elim .nullVal .plainVal
      else .nullVal
  | .plainAt p => if p ∈ created then .proxyVal p else .nullVal
  | .other => .nullVal

/-- Claim C9 (amended): `unproxyfy (proxyfy v)` — looking the root proxy up
in the cache — returns the root plain value itself (deep-equal to `v`);
after a write through any proxy handle, the same lookup returns the updated
plain tree and the written leaf reads back the new value; `unproxyfy`
returns null for any argument absent from the cache — however, a wrapped
plain object (which is not a tracked proxy) is itself a cache key and
returns its proxy rather than null, which is where the claim as stated
fails. -/
theorem unproxyfy_round_trip :
    (∀ (v : PValue) (created : List (List String)), [] ∈ created →
        unproxyfy v created (.proxyAt []) = .plainVal v)
    ∧ (∀ (root : PValue) (p : List String) (key : String) (v w : PValue)
          (created : List (List String)), [] ∈ created →
        (proxySet root p key v).1 = some w →
        unproxyfy w created (.proxyAt []) = .plainVal w ∧
        getPath w (p ++ [key]) = some v)
    ∧ (∀ (v : PValue) (created : List (List String)),
        unproxyfy v created .other = .nullVal)
    ∧ (∀ (v : PValue) (created : List (List String)) (p : List String),
        p ∉ created → unproxyfy v created (.proxyAt p) = .nullVal)
    ∧ (∀ (v : PValue) (created : List (List String)) (p : List String),
        p ∉ created → unproxyfy v created (.plainAt p) = .nullVal) := by
  refine ⟨?_, ?_, ?_, ?_, ?_⟩
  · intro v created hc
    rw [unproxyfy, if_pos hc]
    cases v <;> rfl
  · intro root p key v w created hc hset
    refine ⟨?_, getPath_setPath (p ++ [key]) root v w hset⟩
    rw [unproxyfy, if_pos hc]
    cases w <;> rfl
  · intro v created
    rfl
  · intro v created p hp
    rw [unproxyfy, if_neg hp]
  · intro v created p hp
    rw [unproxyfy, if_neg hp]

/-- The wrapped plain object of the counterexample. -/
def c9Plain : PValue := .vobj (.cons "a" (.vnum 1) .nil)

/-- Counterexample to C9 as stated: after `proxyfy({a:1}, cb)` the plain
target itself — an argument that is not a tracked proxy — is a cache key
(Network.ts:34), so `unproxyfy` returns its proxy, not null. -/
theorem unproxyfy_plain_target_not_null :
    unproxyfy c9Plain [[]] (.plainAt []) = .proxyVal [] ∧
    CacheVal.proxyVal [] ≠ CacheVal.nullVal := by
  constructor
  · rfl
  · intro h
    cases h

/-- Witness for C9: round trip and mutation visibility on `{a:{b:1}}`. -/
theorem unproxyfy_round_trip_witness :
    unproxyfy c8Root [[]] (.proxyAt []) = .plainVal c8Root ∧
    (unproxyfy c8RootAfter [[], ["a"]] (.proxyAt []) = .plainVal c8RootAfter ∧
      getPath c8RootAfter ["a", "b"] = some (.vnum 2)) :=
  ⟨unproxyfy_round_trip.1 c8Root [[]] (by decide),
   unproxyfy_round_trip.2.1 c8Root ["a"] "b" (.vnum 2) c8RootAfter
     [[], ["a"]] (by decide) (by rfl)⟩

/-- `Timer` (Network.ts:646-699): `begin` holds the reference instant.
`Date.now()` instants are naturals; `getTime` subtracts in `Int` as JS
numbers do. -/
structure Timer where
  timerBegin : Nat
deriving DecidableEq, Repr

/-- `Timer.getTime` evaluated at instant `now` (Network.ts:673-677). -/
def Timer.getTime (t : Timer) (now : Nat) : Int :=
  (now : Int) - (t.timerBegin : Int)

/-- `Timer.greaterThan` (Network.ts:684-688). -/
def Timer.greaterThan (t : Timer) (now amount : Nat) : Bool :=
  decide (t.getTime now > (amount : Int))

/-- The staleness threshold of `#timeout` (Network.ts:455) and the interval
period of the heartbeat (Network.ts:445). -/
def timeoutThresholdMs : Nat := 6000

def heartbeatIntervalMs : Nat := 1000

/-- One connection's heartbeat state: its liveness `Timer` and whether the
connection (and its interval, cleared exactly by `clean()`) is still
alive. -/
structure ConnClock where
  timer : Timer
  alive : Bool
deriving DecidableEq, Repr

/-- Heartbeat-relevant occurrences: an interval tick at absolute time `now`,
or an inbound message at `now` whose flag marks the `Network$CLOSE`
sentinel (the one message classification that also closes the
connection). -/
inductive ClockEv where
  | tick : Nat → ClockEv
  | msgAt : Nat → Bool → ClockEv
deriving DecidableEq, Repr

/-- `#timeout` (Network.ts:453-464) and the prefix of `#data`
(Network.ts:526-534): a tick cleancloses exactly when
`timer.greaterThan(6000)` and otherwise sends `Network$IAMHERE`; an inbound
message first resets the timer (line 528) and only then is classified.
Once closed, the interval has been cleared, so ticks no longer occur. -/
def clockStep (s : ConnClock) : ClockEv → ConnClock
  | .tick now =>
      if s.alive = false then s
      else if s.timer.greaterThan now timeoutThresholdMs then
        {s with alive := false}
      else s
  | .msgAt now isClose =>
      if s.alive = false then s
      else if isClose then ⟨⟨now⟩, false⟩
      else ⟨⟨now⟩, s.alive⟩

def clockRun (s : ConnClock) (evs : List ClockEv) : ConnClock :=
  evs.foldl clockStep s

/-- Every tick of the trace observes an elapsed time of at most 6000 ms
relative to the evolving last-reset instant (each message resets it). -/
def ticksFresh : Nat → List ClockEv → Bool
  | _, [] => true
  | tb, .tick now :: rest =>
      !(Timer.greaterThan ⟨tb⟩ now timeoutThresholdMs) && ticksFresh tb rest
  | _, .msgAt now _ :: rest => ticksFresh now rest

/-- No `Network$CLOSE` sentinel in the trace. -/
def noCloseMsg : List ClockEv → Bool
  | [] => true
  | .tick _ :: rest => noCloseMsg rest
  | .msgAt _ isClose :: rest => !isClose && noCloseMsg rest

theorem clockRun_dead (evs : List ClockEv) :
    ∀ s : ConnClock, s.alive = false → clockRun s evs = s := by
  induction evs with
  | nil => intro s _; rfl
  | cons e rest ih =>
      intro s hs
      have hstep : clockStep s e = s := by
        cases e <;> simp [clockStep, hs]
      rw [clockRun, List.foldl_cons, hstep]
      exact ih s hs

/-- Liveness trace characterisation: starting alive and absent a CLOSE
sentinel, the connection is still alive after the trace iff every tick saw
elapsed time ≤ 6000 ms since the last reset. -/
theorem clockRun_alive_iff (evs : List ClockEv) :
    ∀ s : ConnClock, s.alive = true → noCloseMsg evs = true →
      (clockRun s evs).alive = ticksFresh s.timer.timerBegin evs := by
  induction evs with
  | nil => intro s hs _; exact hs
  | cons e rest ih =>
      intro s hs hnc
      cases e with
      | tick now =>
          by_cases hexp : s.timer.greaterThan now timeoutThresholdMs = true
          · have hstep : clockStep s (.tick now) = {s with alive := false} := by
              simp [clockStep, hs, hexp]
            rw [clockRun, List.foldl_cons, hstep,
              show (List.foldl clockStep {s with alive := false} rest) =
                clockRun {s with alive := false} rest from rfl,
              clockRun_dead rest {s with alive := false} rfl]
            have : s.timer = ⟨s.timer.timerBegin⟩ := rfl
            rw [ticksFresh, ← this, hexp]
            rfl
          · have hexp' : s.timer.greaterThan now timeoutThresholdMs = false := by
              cases h : s.timer.greaterThan now timeoutThresholdMs
              · rfl
              · exact absurd h hexp
            have hstep : clockStep s (.tick now) = s := by
              simp [clockStep, hs, hexp']
            rw [clockRun, List.foldl_cons, hstep]
            have : s.timer = ⟨s.timer.timerBegin⟩ := rfl
            rw [ticksFresh, ← this, hexp']
            simpa using ih s hs (by rw [noCloseMsg] at hnc; exact hnc)
      | msgAt now isClose =>
          rw [noCloseMsg, Bool.and_eq_true] at hnc
          have hic : isClose = false := by
            cases h : isClose
            · rfl
            · rw [h] at hnc; exact absurd hnc.1 (by simp)
          have hstep : clockStep s (.msgAt now isClose) = ⟨⟨now⟩, s.alive⟩ := by
            simp [clockStep, hs, hic]
          rw [clockRun, List.foldl_cons, hstep, ticksFresh]
          exact ih ⟨⟨now⟩, s.alive⟩ hs hnc.2

/-- Claim C4: a heartbeat tick (the interval fires every 1000 ms) closes the
connection exactly when more than 6000 ms have elapsed since the liveness
timer was last reset, and otherwise leaves it open and sends
`Network$IAMHERE`; every inbound message resets the timer to the arrival
instant before any classification; over any trace without a CLOSE sentinel,
the connection stays open iff every tick observed elapsed time ≤ 6000 ms
(so traffic within each 6-second window prevents the timeout transition,
and a tick after more than 6 silent seconds takes it); the timeout path is
the Closing path — the entry is removed from the connection table (with the
interval cleared by `clean()`) and `Network$CLOSE` is sent — and the
transport close event then fires the role-appropriate closed callback. -/
theorem heartbeat_timeout_behaviour :
    (∀ (s : ConnClock) (now : Nat), s.alive = true →
        ((clockStep s (.tick now)).alive = false ↔
          s.timer.getTime now > (timeoutThresholdMs : Int)))
    ∧ (∀ (s : ConnClock) (now : Nat) (isClose : Bool), s.alive = true →
        (clockStep s (.msgAt now isClose)).timer.timerBegin = now)
    ∧ (∀ (evs : List ClockEv) (s : ConnClock), s.alive = true →
        noCloseMsg evs = true →
        (clockRun s evs).alive = ticksFresh s.timer.timerBegin evs)
    ∧ (∀ (n : Network) (cid : String),
        (timeoutHandler n cid true).1.connections = connsDelete n.connections cid
        ∧ (timeoutHandler n cid true).2 = [(cid, Msg.closeMsg)]
        ∧ (timeoutHandler n cid false).1 = n
        ∧ (timeoutHandler n cid false).2 = [(cid, Msg.iamhere)])
    ∧ (∀ (n : Network) (cid : String) (receiver : Bool),
        (closeHandler n cid receiver).2 =
          [if receiver then CB.hostClosed else CB.clientClosed]
        ∧ (closeHandler n cid receiver).1.connections =
            connsDelete n.connections cid)
    ∧ heartbeatIntervalMs = 1000 ∧ timeoutThresholdMs = 6000 := by
  refine ⟨?_, ?_, clockRun_alive_iff, ?_, ?_, rfl, rfl⟩
  · intro s now hs
    rw [clockStep]
    by_cases h : s.timer.getTime now > (timeoutThresholdMs : Int)
    · have hgt : s.timer.greaterThan now timeoutThresholdMs = true := by
        rw [Timer.greaterThan, decide_eq_true_eq]
        exact h
      simp [hs, hgt, h]
    · have hgt : s.timer.greaterThan now timeoutThresholdMs = false := by
        rw [Timer.greaterThan, decide_eq_false_iff_not]
        exact h
      simp [hs, hgt, h]
  · intro s now isClose hs
    cases isClose <;> simp [clockStep, hs]
  · intro n cid
    refine ⟨rfl, rfl, rfl, rfl⟩
  · intro n cid receiver
    exact ⟨rfl, rfl⟩

def c4Clock : ConnClock := ⟨⟨0⟩, true⟩

/-- Witness for C4: a tick 7001 ms after the last reset closes; a message
resets the timer; the fresh trace keeps the connection alive. -/
theorem heartbeat_timeout_behaviour_witness :
    (clockStep c4Clock (.tick 7001)).alive = false ∧
    (clockStep c4Clock (.msgAt 42 false)).timer.timerBegin = 42 ∧
    (clockRun c4Clock [.msgAt 5000 false, .tick 7000]).alive =
      ticksFresh c4Clock.timer.timerBegin [.msgAt 5000 false, .tick 7000] :=
  ⟨(heartbeat_timeout_behaviour.1 c4Clock 7001 rfl).mpr (by decide),
   heartbeat_timeout_behaviour.2.1 c4Clock 42 false rfl,
   heartbeat_timeout_behaviour.2.2.1 [.msgAt 5000 false, .tick 7000] c4Clock
     rfl (by decide)⟩

theorem openHandler_initiator {n : Network} {cid : String} {c : Conn}
    (hget : connsGet n.connections cid = some c) (hrecv : c.receiver = false) :
    openHandler n cid =
      ({n with connections := connsSet n.connections {c with opened := true}},
       [], [CB.clientOpened]) := by
  simp only [openHandler, hget, hrecv, Bool.false_eq_true, if_false]

/-- The connection-table invariant maintained by every event: unique peer
ids; while hosting, every entry is receiver-role and the number of admitted
(opened) entries stays below `maxClient`; while not hosting, at most one
initiator entry exists and every opened entry is an initiator (receivers are
rejected at their open event while not hosting). -/
def connInv (isHosting : Bool) (maxClient : Nat) (l : List Conn) : Prop :=
  idsNodup l
  ∧ (isHosting = true → ∀ c ∈ l, c.receiver = true)
  ∧ (isHosting = true → l.countP (fun c => c.opened) ≤ maxClient - 1)
  ∧ (isHosting = false → l.countP (fun c => !c.receiver) ≤ 1)
  ∧ (isHosting = false → ∀ c ∈ l, c.opened = true → c.receiver = false)

def NetInv (n : Network) : Prop :=
  connInv n.isHosting n.maxClient n.connections

theorem connInv_empty (h : Bool) (m : Nat) : connInv h m [] := by
  refine ⟨?_, ?_, ?_, ?_, ?_⟩ <;> simp [idsNodup]

theorem connInv_delete {h : Bool} {m : Nat} {l : List Conn}
    (hc : connInv h m l) (id : String) : connInv h m (connsDelete l id) := by
  obtain ⟨h1, h2, h3, h4, h5⟩ := hc
  refine ⟨idsNodup_connsDelete h1 id, ?_, ?_, ?_, ?_⟩
  · intro hh c hm
    exact h2 hh c ((connsDelete_sublist l id).subset hm)
  · intro hh
    exact le_trans (List.Sublist.countP_le _ (connsDelete_sublist l id)) (h3 hh)
  · intro hh
    exact le_trans (List.Sublist.countP_le _ (connsDelete_sublist l id)) (h4 hh)
  · intro hh c hm ho
    exact h5 hh c ((connsDelete_sublist l id).subset hm) ho

theorem connInv_insert_pending {h : Bool} {m : Nat} {l : List Conn}
    (hc : connInv h m l) (cid : String) :
    connInv h m (connsSet l ⟨cid, true, false⟩) := by
  obtain ⟨h1, h2, h3, h4, h5⟩ := hc
  refine ⟨idsNodup_connsSet h1, ?_, ?_, ?_, ?_⟩
  · intro hh c hm
    rcases mem_connsSet hm with rfl | hm'
    · rfl
    · exact h2 hh c hm'
  · intro hh
    exact le_trans (countP_connsSet_le_of_false rfl) (h3 hh)
  · intro hh
    exact le_trans (countP_connsSet_le_of_false rfl) (h4 hh)
  · intro hh c hm ho
    rcases mem_connsSet hm with rfl | hm'
    · cases ho
    · exact h5 hh c hm' ho

/-- Structure of the state change of one inbound data message: the handler
leaves the network unchanged, cleancloses this connection, or only rewrites
`syncedObjects` — and when it throws, it throws before mutating anything. -/
theorem step_evData_eq (n : Network) (cid : String) (r : Bool) (d : Msg) :
    step n (.evData cid r d) = n ∨
    step n (.evData cid r d) = {n with connections := connsDelete n.connections cid} ∨
    ∃ so, step n (.evData cid r d) = {n with syncedObjects := so} := by
  cases d with
  | closeMsg => exact Or.inr (Or.inl rfl)
  | iamhere => exact Or.inl rfl
  | confirm => cases r <;> exact Or.inl rfl
  | newsync uuid obj =>
      by_cases hhas : syncedHas n.syncedObjects uuid = true
      · simp only [step, dataHandler, hhas, if_true]
        exact Or.inl trivial
      · have hhas' : syncedHas n.syncedObjects uuid = false := by
          cases hx : syncedHas n.syncedObjects uuid
          · rfl
          · exact absurd hx hhas
        simp only [step, dataHandler, hhas', Bool.false_eq_true, if_false]
        cases hp : parseJson obj with
        | none => exact Or.inl rfl
        | some v => exact Or.inr (Or.inr ⟨_, rfl⟩)
  | changesync uuid p val =>
      cases hget : syncedGet n.syncedObjects uuid with
      | none =>
          simp only [step, dataHandler, hget]
          cases happ : applyChangeSync .jsnull p val with
          | error e => exact Or.inl rfl
          | ok w =>
              cases r <;> simp only [Bool.false_eq_true, if_false, if_true] <;>
                exact Or.inr (Or.inr ⟨_, rfl⟩)
      | some plain =>
          simp only [step, dataHandler, hget]
          cases happ : applyChangeSync (.value plain) p val with
          | error e => exact Or.inl rfl
          | ok w =>
              cases r <;> simp only [Bool.false_eq_true, if_false, if_true] <;>
                exact Or.inr (Or.inr ⟨_, rfl⟩)
  | unsyncMsg uuid =>
      cases hget : syncedGet n.syncedObjects uuid with
      | none =>
          simp only [step, dataHandler, hget]
          exact Or.inl trivial
      | some plain =>
          simp only [step, dataHandler, hget]
          exact Or.inr (Or.inr ⟨_, rfl⟩)
  | raw v => cases r <;> exact Or.inl rfl

/-- Every event — transport event handler, heartbeat tick or public
operation — preserves the connection-table invariant. -/
theorem netInv_step {n : Network} (h : NetInv n) (e : Ev) : NetInv (step n e) := by
  obtain ⟨h1, h2, h3, h4, h5⟩ := h
  cases e with
  | evPeerOpen id => exact ⟨h1, h2, h3, h4, h5⟩
  | evConnection id => exact connInv_insert_pending ⟨h1, h2, h3, h4, h5⟩ id
  | evOpen cid =>
      show NetInv (openHandler n cid).1
      cases hg : connsGet n.connections cid with
      | none =>
          simp only [openHandler, hg]
          exact ⟨h1, h2, h3, h4, h5⟩
      | some c =>
          cases hrecv : c.receiver with
          | true =>
              by_cases hr : rejectCond n cid = true
              · rw [openHandler_reject hg hrecv hr]
                exact connInv_delete ⟨h1, h2, h3, h4, h5⟩ cid
              · have hr' : rejectCond n cid = false := by
                  cases hx : rejectCond n cid
                  · rfl
                  · exact absurd hx hr
                rw [openHandler_accepted hg hrecv hr']
                show connInv n.isHosting n.maxClient
                  (connsSet n.connections {c with opened := true})
                obtain ⟨hhost, _, hcap, _⟩ := (rejectCond_eq_false_iff n cid).mp hr'
                have hcid : c.id = cid := (connsGet_mem hg).2
                have hget' :
                    connsGet n.connections ({c with opened := true} : Conn).id = some c := by
                  show connsGet n.connections c.id = some c
                  rw [hcid]
                  exact hg
                have hupd := countP_connsSet_update (fun x => x.opened) h1 hget'
                refine ⟨idsNodup_connsSet h1, ?_, ?_, ?_, ?_⟩
                · intro hh c' hm
                  rcases mem_connsSet hm with rfl | hm'
                  · exact hrecv
                  · exact h2 hh c' hm'
                · intro _
                  simp only [show ({c with opened := true} : Conn).opened = true from rfl,
                    if_true] at hupd
                  cases hco : c.opened with
                  | true =>
                      simp only [hco, if_true] at hupd
                      have h3' := h3 hhost
                      omega
                  | false =>
                      simp only [hco, Bool.false_eq_true, if_false] at hupd
                      have hlt := countP_lt_length_of_mem (connsGet_mem hg).1
                        (p := fun x => x.opened) hco
                      omega
                · intro hf
                  rw [hf] at hhost
                  cases hhost
                · intro hf
                  rw [hf] at hhost
                  cases hhost
          | false =>
              rw [openHandler_initiator hg hrecv]
              show connInv n.isHosting n.maxClient
                (connsSet n.connections {c with opened := true})
              cases hhost : n.isHosting with
              | true =>
                  exact absurd (h2 hhost c (connsGet_mem hg).1) (by rw [hrecv]; simp)
              | false =>
                  have hcid : c.id = cid := (connsGet_mem hg).2
                  have hget' :
                      connsGet n.connections ({c with opened := true} : Conn).id = some c := by
                    show connsGet n.connections c.id = some c
                    rw [hcid]
                    exact hg
                  have hupd := countP_connsSet_update (fun x => !x.receiver) h1 hget'
                  refine ⟨idsNodup_connsSet h1, ?_, ?_, ?_, ?_⟩
                  · intro hh
                    cases hh
                  · intro hh
                    cases hh
                  · intro _
                    have h4' := h4 hhost
                    simp [hrecv] at hupd ⊢
                    omega
                  · intro _ c' hm ho
                    rcases mem_connsSet hm with rfl | hm'
                    · exact hrecv
                    · exact h5 hhost c' hm' ho
  | evClose cid receiver => exact connInv_delete ⟨h1, h2, h3, h4, h5⟩ cid
  | evData cid r d =>
      rcases step_evData_eq n cid r d with he | he | ⟨so, he⟩ <;> rw [he]
      · exact ⟨h1, h2, h3, h4, h5⟩
      · exact connInv_delete ⟨h1, h2, h3, h4, h5⟩ cid
      · exact ⟨h1, h2, h3, h4, h5⟩
  | evTick cid expired =>
      cases expired with
      | true => exact connInv_delete ⟨h1, h2, h3, h4, h5⟩ cid
      | false => exact ⟨h1, h2, h3, h4, h5⟩
  | opConnectTo id =>
      show NetInv (n.connectTo id)
      rw [Network.connectTo]
      by_cases hgd : (id == n.selfId || !n.peerStarted || n.isHosting ||
          n.hasConnections) = true
      · rw [if_pos hgd]
        exact ⟨h1, h2, h3, h4, h5⟩
      · rw [if_neg hgd]
        show connInv n.isHosting n.maxClient
          (connsSet n.connections ⟨id, false, false⟩)
        have hbits : n.isHosting = false ∧ n.hasConnections = false := by
          cases hx : n.isHosting <;> cases hy : n.hasConnections <;>
            simp [hx, hy] at hgd ⊢
        have hempty : n.connections = [] := by
          have hb := hbits.2
          rw [Network.hasConnections] at hb
          simp at hb
          exact hb
        refine ⟨?_, ?_, ?_, ?_, ?_⟩
        · rw [hempty]
          simp [idsNodup, connsSet]
        · intro hh
          have hcontra := hbits.1
          rw [hh] at hcontra
          cases hcontra
        · intro hh
          have hcontra := hbits.1
          rw [hh] at hcontra
          cases hcontra
        · intro _
          rw [hempty]
          simp [connsSet, List.countP_cons]
        · intro _ c hm ho
          rw [hempty] at hm
          rcases mem_connsSet hm with rfl | hm'
          · cases ho
          · cases hm'
  | opEnableHosting abort =>
      show NetInv (n.enableHosting abort).1
      rw [Network.enableHosting]
      by_cases hcond : (!n.isHosting && (!n.hasConnections || !abort)) = true
      · rw [if_pos hcond]
        exact connInv_empty true n.maxClient
      · rw [if_neg hcond]
        exact ⟨h1, h2, h3, h4, h5⟩
  | opDisableHosting abort =>
      show NetInv (n.disableHosting abort).1
      rw [Network.disableHosting]
      by_cases hcond : (n.isHosting && (!n.hasConnections || !abort)) = true
      · rw [if_pos hcond]
        exact connInv_empty false n.maxClient
      · rw [if_neg hcond]
        exact ⟨h1, h2, h3, h4, h5⟩
  | opCloseConnection id =>
      show NetInv (n.closeConnection id).1
      rw [closeConnection_fst]
      exact connInv_delete ⟨h1, h2, h3, h4, h5⟩ id
  | opCloseAllConnections => exact connInv_empty n.isHosting n.maxClient
  | opAllow id => exact ⟨h1, h2, h3, h4, h5⟩
  | opDeny id =>
      show NetInv (n.deny id).1
      rw [Network.deny]
      by_cases hc : (n.useWhitelist && n.isHosting) = true
      · rw [if_pos hc, closeConnection_fst]
        exact connInv_delete ⟨h1, h2, h3, h4, h5⟩ id
      · rw [if_neg hc]
        exact ⟨h1, h2, h3, h4, h5⟩
  | opBan id =>
      show NetInv (n.ban id).1
      rw [Network.ban, closeConnection_fst]
      exact connInv_delete ⟨h1, h2, h3, h4, h5⟩ id
  | opUnban id => exact ⟨h1, h2, h3, h4, h5⟩
  | opSyncObject uuid v =>
      show NetInv (n.syncObject uuid v).1
      rw [Network.syncObject]
      by_cases hc1 : (!n.isHosting && n.hasConnections) = true
      · rw [if_pos hc1]
        exact ⟨h1, h2, h3, h4, h5⟩
      · rw [if_neg hc1]
        by_cases hc2 : syncedHas n.syncedObjects uuid = true
        · rw [if_pos hc2]
          exact ⟨h1, h2, h3, h4, h5⟩
        · rw [if_neg hc2]
          exact ⟨h1, h2, h3, h4, h5⟩
  | opUnsync uuid =>
      show NetInv (n.unsync uuid).1
      rw [Network.unsync]
      by_cases hc1 : (!n.isHosting && n.hasConnections) = true
      · rw [if_pos hc1]
        exact ⟨h1, h2, h3, h4, h5⟩
      · rw [if_neg hc1]
        cases hget : syncedGet n.syncedObjects uuid with
        | none => exact ⟨h1, h2, h3, h4, h5⟩
        | some plain => exact ⟨h1, h2, h3, h4, h5⟩

theorem netInv_run (evs : List Ev) :
    ∀ n : Network, NetInv n → NetInv (run n evs) := by
  induction evs with
  | nil => intro n h; exact h
  | cons e rest ih =>
      intro n h
      rw [run, List.foldl_cons]
      exact ih (step n e) (netInv_step h e)

theorem netInv_init (maxClient : Nat) (ac uw : Bool) :
    NetInv (initNetwork maxClient ac uw) :=
  connInv_empty false maxClient

/-- Claim C5 (amended): in every reachable quiescent state — one where every
tabled connection has had its transport open event processed, so no
admission check is pending — the connection table holds at most one entry
while not hosting and at most `maxClient` entries while hosting; every
public operation, transport handler and heartbeat tick preserves the
underlying invariant (`netInv_step`).  Transiently, between an inbound
connection event and that connection's open event, the table can exceed
both bounds, because `Network.start`'s connection handler inserts before
any admission check — see the counterexample. -/
theorem connections_bounded_when_quiescent (maxClient : Nat)
    (acceptConnections useWhitelist : Bool) (evs : List Ev)
    (hq : ∀ c ∈ (run (initNetwork maxClient acceptConnections useWhitelist)
        evs).connections, c.opened = true) :
    ((run (initNetwork maxClient acceptConnections useWhitelist) evs).isHosting
        = false →
      (run (initNetwork maxClient acceptConnections useWhitelist)
          evs).connections.length ≤ 1)
    ∧ ((run (initNetwork maxClient acceptConnections useWhitelist) evs).isHosting
        = true →
      (run (initNetwork maxClient acceptConnections useWhitelist)
          evs).connections.length ≤
        (run (initNetwork maxClient acceptConnections useWhitelist)
          evs).maxClient) := by
  obtain ⟨h1, h2, h3, h4, h5⟩ :=
    netInv_run evs _ (netInv_init maxClient acceptConnections useWhitelist)
  constructor
  · intro hh
    have hall : ∀ c ∈ (run (initNetwork maxClient acceptConnections useWhitelist)
        evs).connections, (fun c => !c.receiver) c = true := by
      intro c hm
      simp [h5 hh c hm (hq c hm)]
    have hlen := List.countP_eq_length.mpr hall
    have h4' := h4 hh
    omega
  · intro hh
    have hall : ∀ c ∈ (run (initNetwork maxClient acceptConnections useWhitelist)
        evs).connections, (fun c => c.opened) c = true := by
      intro c hm
      exact hq c hm
    have hlen := List.countP_eq_length.mpr hall
    have h3' := h3 hh
    omega

/-- Counterexample to C5 as stated: while not hosting, two inbound
connection events leave two entries in the table — `Network.start`'s
connection handler inserts unconditionally at connection-creation time and
the admission check only runs at each connection's later open event. -/
theorem two_pending_inbound_connections :
    (run (initNetwork 15 true true)
      [.evConnection "a", .evConnection "b"]).isHosting = false ∧
    (run (initNetwork 15 true true)
      [.evConnection "a", .evConnection "b"]).connections.length = 2 := by
  constructor <;> rfl

/-- Witness for C5: after the rejected inbound connection's open event the
state is quiescent and within bounds. -/
theorem connections_bounded_witness :
    (run (initNetwork 15 true true)
      [Ev.evConnection "a", Ev.evOpen "a"]).connections.length ≤ 1 :=
  (connections_bounded_when_quiescent 15 true true
    [Ev.evConnection "a", Ev.evOpen "a"] (by decide)).1 rfl
